import Mathlib

/-!
# notes-api: a shallow embedding of `main.go`

The service stores notes in a bolt bucket (`DB` / `NOTES`), keyed by a timestamp id, with
`encoding/json` as the on-disk and on-the-wire encoding.  This file embeds

* Go strings as byte sequences, with `unicode/utf8` (`DecodeRune`, `EncodeRune`, `Valid`);
* `encoding/json` as far as `main.go` uses it: `Marshal` / `Encoder.Encode` for `Note`,
  `*Note`, `[]*Note` and `string`, and `Unmarshal` into `NewNote` and `*Note`;
* `time.Time.Format` for the layout `20060102150405`;
* a bolt bucket as a key-ordered list of key/value pairs, with `Get`, `Put`, `Delete`, `ForEach`;
* the four handlers and `initializeDatabase`, with the three ways a request can end: a JSON
  reply, an `http.Error` reply, or a run-time panic (nil pointer dereference).
-/

namespace NotesApi

/-! ## Byte strings -/

/-- Go strings and byte slices: sequences of bytes, each byte kept as a natural number. -/
abbrev Bytes := List Nat

/-- The bytes of an ASCII source literal. -/
def str (s : String) : Bytes := s.toList.map Char.toNat

/-! ## unicode/utf8 -/

/-- The constant `utf8.RuneError` (U+FFFD), also `unicode.ReplacementChar`. -/
def RuneError : Nat := 0xFFFD

/-- The constant `utf8.MaxRune`. -/
def MaxRune : Nat := 0x10FFFF

/-- Continuation-byte test against an accept range `[lo, hi]` of `utf8.acceptRanges`. -/
def inRange (lo hi b : Nat) : Bool := decide (lo ≤ b) && decide (b ≤ hi)

/-- The function `utf8.DecodeRune`: the first rune of `p` and its width in bytes.  An invalid or
short encoding gives `(RuneError, 1)`, the empty input `(RuneError, 0)`.  The lead byte selects
the width and the accept range of the second byte, as the tables `first` and `acceptRanges`
do: `C2..DF` two bytes; `E0` (second byte `A0..BF`), `E1..EC`, `ED` (second byte `80..9F`),
`EE..EF` three bytes; `F0` (`90..BF`), `F1..F3`, `F4` (`80..8F`) four bytes. -/
def decodeRune : Bytes → Nat × Nat
  | [] => (RuneError, 0)
  | p0 :: rest =>
    if p0 < 0x80 then (p0, 1)
    else if p0 < 0xC2 then (RuneError, 1)
    else if p0 ≤ 0xDF then
      match rest with
      | b1 :: _ =>
        if inRange 0x80 0xBF b1 then (p0 % 32 * 64 + b1 % 64, 2) else (RuneError, 1)
      | _ => (RuneError, 1)
    else if p0 ≤ 0xEF then
      match rest with
      | b1 :: b2 :: _ =>
        if inRange (if p0 = 0xE0 then 0xA0 else 0x80) (if p0 = 0xED then 0x9F else 0xBF) b1
            && inRange 0x80 0xBF b2 then
          (p0 % 16 * 4096 + b1 % 64 * 64 + b2 % 64, 3)
        else (RuneError, 1)
      | _ => (RuneError, 1)
    else if p0 ≤ 0xF4 then
      match rest with
      | b1 :: b2 :: b3 :: _ =>
        if inRange (if p0 = 0xF0 then 0x90 else 0x80) (if p0 = 0xF4 then 0x8F else 0xBF) b1
            && inRange 0x80 0xBF b2 && inRange 0x80 0xBF b3 then
          (p0 % 8 * 262144 + b1 % 64 * 4096 + b2 % 64 * 64 + b3 % 64, 4)
        else (RuneError, 1)
      | _ => (RuneError, 1)
    else (RuneError, 1)

/-- The function `utf8.EncodeRune`: the UTF-8 encoding of a rune; surrogates and values above
`MaxRune` are written as `RuneError`. -/
def encodeRune (r : Nat) : Bytes :=
  if r ≤ 0x7F then [r]
  else if r ≤ 0x7FF then [0xC0 + r / 64, 0x80 + r % 64]
  else if MaxRune < r ∨ (0xD800 ≤ r ∧ r ≤ 0xDFFF) then [0xEF, 0xBF, 0xBD]
  else if r ≤ 0xFFFF then [0xE0 + r / 4096, 0x80 + r / 64 % 64, 0x80 + r % 64]
  else [0xF0 + r / 262144, 0x80 + r / 4096 % 64, 0x80 + r / 64 % 64, 0x80 + r % 64]

/-- Loop of `utf8.Valid`: every position starts a valid encoding. -/
def validAux : Nat → Bytes → Bool
  | 0, s => s.isEmpty
  | _ + 1, [] => true
  | fuel + 1, b :: rest =>
    if b < 0x80 then validAux fuel rest
    else
      let d := decodeRune (b :: rest)
      if d.1 = RuneError ∧ d.2 = 1 then false
      else validAux fuel (rest.drop (d.2 - 1))

/-- The function `utf8.Valid`: the byte string consists entirely of valid UTF-8 encoded runes. -/
def Valid (s : Bytes) : Bool := validAux s.length s

/-! ## encoding/json: encoding -/

/-- The digit table `hex = "0123456789abcdef"` of `encoding/json`, indexed by a nibble. -/
def hex (n : Nat) : Nat := if n < 10 then 48 + n else 87 + n

/-- The table `htmlSafeSet`: the ASCII bytes that `Marshal` and `Encoder.Encode` (both with HTML
escaping on) copy unescaped: `0x20..0x7F` without `"`, `&`, `<`, `>` and `\`. -/
def htmlSafeSet (b : Nat) : Bool :=
  decide (0x20 ≤ b) && decide (b < 0x80) && !(b == 0x22 || b == 0x26 || b == 0x3C
    || b == 0x3E || b == 0x5C)

/-- The escape that `appendString` writes for an ASCII byte outside `htmlSafeSet`. -/
def escapeByte (b : Nat) : Bytes :=
  if b = 0x5C ∨ b = 0x22 then [0x5C, b]
  else if b = 0x0A then [0x5C, 0x6E]
  else if b = 0x0D then [0x5C, 0x72]
  else if b = 0x09 then [0x5C, 0x74]
  else [0x5C, 0x75, 0x30, 0x30, hex (b / 16), hex (b % 16)]

/-- Loop of `appendString` (the string encoder of `encoding/json`) over the source bytes:
safe ASCII is copied, other ASCII is escaped, an invalid byte is written as the six characters
`\ufffd`, the runes U+2028 and U+2029 as `\u2028` and `\u2029`, any other rune is copied. -/
def appendStringAux : Nat → Bytes → Bytes
  | 0, _ => []
  | _ + 1, [] => []
  | fuel + 1, b :: rest =>
    if b < 0x80 then
      (if htmlSafeSet b then [b] else escapeByte b) ++ appendStringAux fuel rest
    else
      let d := decodeRune (b :: rest)
      if d.1 = RuneError ∧ d.2 = 1 then
        [0x5C, 0x75, 0x66, 0x66, 0x66, 0x64] ++ appendStringAux fuel rest
      else if d.1 = 0x2028 ∨ d.1 = 0x2029 then
        [0x5C, 0x75, 0x32, 0x30, 0x32, hex (d.1 % 16)] ++ appendStringAux fuel (rest.drop (d.2 - 1))
      else (b :: rest).take d.2 ++ appendStringAux fuel (rest.drop (d.2 - 1))

/-- The string encoder `appendString`: a quoted JSON string. -/
def appendString (s : Bytes) : Bytes :=
  0x22 :: (appendStringAux s.length s ++ [0x22])

/-! ## encoding/json: decoding -/

/-- A JSON text as the scanner of `encoding/json` reads it.  Numbers keep no value: the
structs of `main.go` have string fields only. -/
inductive JValue where
  | null
  | bool (b : Bool)
  | number
  | string (s : Bytes)
  | array (items : List JValue)
  | object (members : List (Bytes × JValue))

/-- The scanner's `isSpace`: space, tab, carriage return, line feed. -/
def isSpace (c : Nat) : Bool := c == 0x20 || c == 0x09 || c == 0x0D || c == 0x0A

/-- Skip JSON white space. -/
def skipSpace : Bytes → Bytes
  | [] => []
  | c :: rest => if isSpace c then skipSpace rest else c :: rest

/-- Value of a hexadecimal digit, as in `getu4`. -/
def hexValue (c : Nat) : Option Nat :=
  if 0x30 ≤ c ∧ c ≤ 0x39 then some (c - 0x30)
  else if 0x61 ≤ c ∧ c ≤ 0x66 then some (c - 0x61 + 10)
  else if 0x41 ≤ c ∧ c ≤ 0x46 then some (c - 0x41 + 10)
  else none

/-- The function `getu4`: the rune of a leading `\uXXXX` escape, `none` where Go returns `-1`. -/
def getu4 : Bytes → Option Nat
  | 0x5C :: 0x75 :: c1 :: c2 :: c3 :: c4 :: _ =>
    match hexValue c1, hexValue c2, hexValue c3, hexValue c4 with
    | some d1, some d2, some d3, some d4 => some (((d1 * 16 + d2) * 16 + d3) * 16 + d4)
    | _, _, _, _ => none
  | _ => none

/-- The function `utf16.IsSurrogate`. -/
def isSurrogate (r : Nat) : Bool := decide (0xD800 ≤ r) && decide (r < 0xE000)

/-- The function `utf16.DecodeRune` on a first rune and the result of `getu4` for the second:
the rune of a valid surrogate pair, else `unicode.ReplacementChar`. -/
def utf16DecodeRune (r1 : Nat) (r2 : Option Nat) : Nat :=
  match r2 with
  | some r2 =>
    if 0xD800 ≤ r1 ∧ r1 < 0xDC00 ∧ 0xDC00 ≤ r2 ∧ r2 < 0xE000 then
      (r1 - 0xD800) * 1024 + (r2 - 0xDC00) + 0x10000
    else RuneError
  | none => RuneError

/-- The body of a string literal, after its opening quote: the scanner's string states and
`unquote` in one pass.  `acc` is the text decoded so far; the result is the decoded text and the
input after the closing quote.  A control character, an unknown escape or a missing closing quote
is an error; invalid UTF-8 and unpaired surrogates are replaced by U+FFFD. -/
def unquoteAux : Nat → Bytes → Bytes → Option (Bytes × Bytes)
  | 0, _, _ => none
  | _ + 1, [], _ => none
  | fuel + 1, c :: rest, acc =>
    if c = 0x22 then some (acc, rest)
    else if c = 0x5C then
      match rest with
      | [] => none
      | e :: rest1 =>
        if e = 0x22 ∨ e = 0x5C ∨ e = 0x2F then unquoteAux fuel rest1 (acc ++ [e])
        else if e = 0x62 then unquoteAux fuel rest1 (acc ++ [0x08])
        else if e = 0x66 then unquoteAux fuel rest1 (acc ++ [0x0C])
        else if e = 0x6E then unquoteAux fuel rest1 (acc ++ [0x0A])
        else if e = 0x72 then unquoteAux fuel rest1 (acc ++ [0x0D])
        else if e = 0x74 then unquoteAux fuel rest1 (acc ++ [0x09])
        else if e = 0x75 then
          match getu4 (c :: rest) with
          | none => none
          | some rr =>
            let rest6 := rest.drop 5
            if isSurrogate rr then
              let dec := utf16DecodeRune rr (getu4 rest6)
              if dec ≠ RuneError then unquoteAux fuel (rest6.drop 6) (acc ++ encodeRune dec)
              else unquoteAux fuel rest6 (acc ++ encodeRune RuneError)
            else unquoteAux fuel rest6 (acc ++ encodeRune rr)
        else none
    else if c < 0x20 then none
    else if c < 0x80 then unquoteAux fuel rest (acc ++ [c])
    else
      let d := decodeRune (c :: rest)
      unquoteAux fuel (rest.drop (d.2 - 1)) (acc ++ encodeRune d.1)

/-- A string literal after its opening quote. -/
def unquote (input : Bytes) : Option (Bytes × Bytes) := unquoteAux input.length input []

/-- The decimal digits `0..9`. -/
def isDigit (c : Nat) : Bool := decide (0x30 ≤ c) && decide (c ≤ 0x39)

/-- Drop a run of digits. -/
def skipDigits : Bytes → Bytes
  | [] => []
  | c :: rest => if isDigit c then skipDigits rest else c :: rest

/-- At least one digit, then a run of digits. -/
def digits1 : Bytes → Option Bytes
  | c :: rest => if isDigit c then some (skipDigits rest) else none
  | [] => none

/-- Optional exponent of a number (states `stateE`, `stateESign`, `stateE0`). -/
def scanExponent : Bytes → Option Bytes
  | c :: rest =>
    if c = 0x65 ∨ c = 0x45 then
      match rest with
      | s :: rest1 => if s = 0x2B ∨ s = 0x2D then digits1 rest1 else digits1 (s :: rest1)
      | [] => none
    else some (c :: rest)
  | [] => some []

/-- Optional fraction, then optional exponent (states `stateDot`, `stateDot0`). -/
def scanFraction : Bytes → Option Bytes
  | c :: rest =>
    if c = 0x2E then (digits1 rest).bind scanExponent else scanExponent (c :: rest)
  | [] => some []

/-- A number literal (states `stateNeg`, `state0`, `state1`): the input after it. -/
def scanNumber : Bytes → Option Bytes
  | c :: rest =>
    let body := if c = 0x2D then rest else c :: rest
    match body with
    | d :: rest1 =>
      if d = 0x30 then scanFraction rest1
      else if isDigit d then scanFraction (skipDigits rest1)
      else none
    | [] => none
  | [] => none

/-- Strip a literal word from the front of the input. -/
def stripWord : Bytes → Bytes → Option Bytes
  | [], input => some input
  | w :: ws, c :: rest => if w = c then stripWord ws rest else none
  | _ :: _, [] => none

mutual
/-- One JSON value with leading white space: the value and the input after it. -/
def parseValue : Nat → Bytes → Option (JValue × Bytes)
  | 0, _ => none
  | fuel + 1, input =>
    match skipSpace input with
    | [] => none
    | c :: rest =>
      if c = 0x7B then
        match skipSpace rest with
        | 0x7D :: rest1 => some (JValue.object [], rest1)
        | rest1 => parseMembers fuel rest1 []
      else if c = 0x5B then
        match skipSpace rest with
        | 0x5D :: rest1 => some (JValue.array [], rest1)
        | rest1 => parseElements fuel rest1 []
      else if c = 0x22 then
        match unquote rest with
        | some (s, rest1) => some (JValue.string s, rest1)
        | none => none
      else if c = 0x74 then (stripWord (str "rue") rest).map (fun r => (JValue.bool true, r))
      else if c = 0x66 then (stripWord (str "alse") rest).map (fun r => (JValue.bool false, r))
      else if c = 0x6E then (stripWord (str "ull") rest).map (fun r => (JValue.null, r))
      else (scanNumber (c :: rest)).map (fun r => (JValue.number, r))
/-- The members of an object from a key on, up to and including the closing brace. -/
def parseMembers : Nat → Bytes → List (Bytes × JValue) → Option (JValue × Bytes)
  | 0, _, _ => none
  | fuel + 1, input, acc =>
    match skipSpace input with
    | 0x22 :: rest =>
      match unquote rest with
      | none => none
      | some (key, rest1) =>
        match skipSpace rest1 with
        | 0x3A :: rest2 =>
          match parseValue fuel rest2 with
          | none => none
          | some (v, rest3) =>
            match skipSpace rest3 with
            | 0x2C :: rest4 => parseMembers fuel rest4 (acc ++ [(key, v)])
            | 0x7D :: rest4 => some (JValue.object (acc ++ [(key, v)]), rest4)
            | _ => none
        | _ => none
    | _ => none
/-- The elements of an array from a value on, up to and including the closing bracket. -/
def parseElements : Nat → Bytes → List JValue → Option (JValue × Bytes)
  | 0, _, _ => none
  | fuel + 1, input, acc =>
    match parseValue fuel input with
    | none => none
    | some (v, rest) =>
      match skipSpace rest with
      | 0x2C :: rest1 => parseElements fuel rest1 (acc ++ [v])
      | 0x5D :: rest1 => some (JValue.array (acc ++ [v]), rest1)
      | _ => none
end

/-- The function `checkValid` together with the scan of the value: one JSON value, white space
around it, and nothing else.  The fuel is the length of the input plus one; every level of nesting
consumes at least one byte. -/
def parseJSON (data : Bytes) : Option JValue :=
  match parseValue (data.length + 1) data with
  | some (v, rest) => if skipSpace rest = [] then some v else none
  | none => none

/-! ## The records of `main.go` and their JSON form -/

/-- The struct `Note` of `main.go`. -/
structure Note where
  Id : Bytes
  Title : Bytes
  Body : Bytes
  deriving DecidableEq, Repr

/-- The struct `NewNote` of `main.go`. -/
structure NewNote where
  Title : Bytes
  Body : Bytes
  deriving DecidableEq, Repr

/-- An error value returned by `encoding/json`: a `*SyntaxError` from `checkValid`, or an
`*UnmarshalTypeError` for a JSON value that does not fit the Go type. -/
inductive JsonError where
  | malformed
  | typeMismatch
  deriving DecidableEq, Repr

/-- ASCII lower case of a byte. -/
def toLower (c : Nat) : Nat := if 0x41 ≤ c ∧ c ≤ 0x5A then c + 0x20 else c

/-- Match of an object key with a struct field name: equal up to case.  The field names of
`main.go` hold no `k` and no `s`, the two ASCII letters that also fold with a non-ASCII rune,
so the fold is the ASCII one. -/
def equalFold (key name : Bytes) : Bool := key.map toLower == name.map toLower

/-- Store one JSON value into a string field: a string literal sets it, `null` leaves it, any
other value leaves it and raises the flag of a saved `UnmarshalTypeError`. -/
def storeString (v : JValue) (old : Bytes) : Bytes × Bool :=
  match v with
  | JValue.string s => (s, false)
  | JValue.null => (old, false)
  | _ => (old, true)

/-- One member of a JSON object into a `Note`: the field whose name matches the key is stored,
an unknown key is skipped. -/
def Note.setMember (n : Note) (key : Bytes) (v : JValue) : Note × Bool :=
  if equalFold key (str "Id") then
    ({ n with Id := (storeString v n.Id).1 }, (storeString v n.Id).2)
  else if equalFold key (str "Title") then
    ({ n with Title := (storeString v n.Title).1 }, (storeString v n.Title).2)
  else if equalFold key (str "Body") then
    ({ n with Body := (storeString v n.Body).1 }, (storeString v n.Body).2)
  else (n, false)

/-- The members of a JSON object into a `Note`, in order (a later duplicate key overwrites);
the flag tells whether some member raised a type error. -/
def Note.setMembers : List (Bytes × JValue) → Note → Note × Bool
  | [], n => (n, false)
  | (key, v) :: rest, n =>
    let r := Note.setMembers rest (n.setMember key v).1
    (r.1, (n.setMember key v).2 || r.2)

/-- One member of a JSON object into a `NewNote`. -/
def NewNote.setMember (n : NewNote) (key : Bytes) (v : JValue) : NewNote × Bool :=
  if equalFold key (str "Title") then
    ({ n with Title := (storeString v n.Title).1 }, (storeString v n.Title).2)
  else if equalFold key (str "Body") then
    ({ n with Body := (storeString v n.Body).1 }, (storeString v n.Body).2)
  else (n, false)

/-- The members of a JSON object into a `NewNote`, in order. -/
def NewNote.setMembers : List (Bytes × JValue) → NewNote → NewNote × Bool
  | [], n => (n, false)
  | (key, v) :: rest, n =>
    let r := NewNote.setMembers rest (n.setMember key v).1
    (r.1, (n.setMember key v).2 || r.2)

/-- The call `json.Unmarshal(reqBody, &newNote)` of `createNote`, `newNote` being the zero
`NewNote`: an object fills the fields, `null` changes nothing, another value is a type error. -/
def unmarshalNewNote (data : Bytes) : Except JsonError NewNote :=
  match parseJSON data with
  | none => Except.error JsonError.malformed
  | some (JValue.object members) =>
    let r := NewNote.setMembers members { Title := [], Body := [] }
    if r.2 then Except.error JsonError.typeMismatch else Except.ok r.1
  | some JValue.null => Except.ok { Title := [], Body := [] }
  | some _ => Except.error JsonError.typeMismatch

/-- The call `json.Unmarshal(v, &note)` of `getNote` and `getNotes`, where `note` is a
`*Note` pointing to a fresh zero `Note`, so the target is a pointer to a pointer: an object fills
the `Note`, `null` sets the pointer `note` to `nil` (`none`), another value is a type error. -/
def unmarshalNote (data : Bytes) : Except JsonError (Option Note) :=
  match parseJSON data with
  | none => Except.error JsonError.malformed
  | some (JValue.object members) =>
    let r := Note.setMembers members { Id := [], Title := [], Body := [] }
    if r.2 then Except.error JsonError.typeMismatch else Except.ok (some r.1)
  | some JValue.null => Except.ok none
  | some _ => Except.error JsonError.typeMismatch

/-- The call `json.Marshal(note)` for a `Note`: an object whose member names are the Go field
names (the struct has no `json` tags), in field order.  It never fails. -/
def marshalNote (n : Note) : Bytes :=
  str "\x7b\"Id\":" ++ appendString n.Id ++ str ",\"Title\":" ++ appendString n.Title
    ++ str ",\"Body\":" ++ appendString n.Body ++ str "\x7d"

/-- JSON form of a `*Note`: `null` for the nil pointer. -/
def marshalNotePtr : Option Note → Bytes
  | none => str "null"
  | some n => marshalNote n

/-- The elements of a JSON array, comma separated. -/
def joinElements : List Bytes → Bytes
  | [] => []
  | [x] => x
  | x :: y :: rest => x ++ 0x2C :: joinElements (y :: rest)

/-- JSON form of a non-nil `[]*Note`. -/
def marshalNotes (notes : List (Option Note)) : Bytes :=
  0x5B :: (joinElements (notes.map marshalNotePtr) ++ [0x5D])

/-- What `json.NewEncoder(w).Encode(v)` writes, given the JSON form of `v`: that text and a
newline. -/
def encodeLine (json : Bytes) : Bytes := json ++ [0x0A]

/-! ## time -/

/-- A reading of the wall clock (`time.Now()`), given by what `Date` and `Clock` return for
it in the local zone, and the nanosecond within the second. -/
structure Time where
  year : Int
  month : Nat
  day : Nat
  hour : Nat
  minute : Nat
  second : Nat
  nanosecond : Nat
  deriving DecidableEq, Repr

/-- Decimal digits of a number, most significant first. -/
def decimal : Nat → Nat → Bytes
  | 0, _ => []
  | fuel + 1, u => if u < 10 then [0x30 + u] else decimal fuel (u / 10) ++ [0x30 + u % 10]

/-- The function `appendInt` of package `time`: the decimal form of `x`, a minus sign first when
negative, zero-padded to `width` digits; the two-digit and four-digit cases are written out as
in the source. -/
def appendInt (x : Int) (width : Nat) : Bytes :=
  let u := x.natAbs
  let sign : Bytes := if x < 0 then [0x2D] else []
  if width = 2 ∧ u < 100 then sign ++ [0x30 + u / 10, 0x30 + u % 10]
  else if width = 4 ∧ u < 10000 then
    sign ++ [0x30 + u / 1000, 0x30 + u / 100 % 10, 0x30 + u / 10 % 10, 0x30 + u % 10]
  else
    let ds := decimal (u + 1) u
    sign ++ List.replicate (width - ds.length) 0x30 ++ ds

/-- The call `Format("20060102150405")`: the layout is the chunks `2006` (year, four digits),
`01` (month), `02` (day), `15` (hour), `04` (minute), `05` (second), two digits each. -/
def Time.Format (t : Time) : Bytes :=
  appendInt t.year 4 ++ appendInt t.month 2 ++ appendInt t.day 2 ++ appendInt t.hour 2
    ++ appendInt t.minute 2 ++ appendInt t.second 2

/-- A clock reading the calendar can show, in a year of four digits. -/
def Time.civil (t : Time) : Prop :=
  0 ≤ t.year ∧ t.year ≤ 9999 ∧ 1 ≤ t.month ∧ t.month ≤ 12 ∧ 1 ≤ t.day ∧ t.day ≤ 31
    ∧ t.hour < 24 ∧ t.minute < 60 ∧ t.second < 60

instance (t : Time) : Decidable t.civil := by unfold Time.civil; infer_instance

/-- Two clock readings within the same second. -/
def Time.sameSecond (a b : Time) : Prop :=
  a.year = b.year ∧ a.month = b.month ∧ a.day = b.day ∧ a.hour = b.hour
    ∧ a.minute = b.minute ∧ a.second = b.second

instance (a b : Time) : Decidable (a.sameSecond b) := by unfold Time.sameSecond; infer_instance

/-! ## bolt -/

/-- Order of keys in a bucket: `bytes.Compare(a, b) < 0`. -/
def keyLt : Bytes → Bytes → Bool
  | [], [] => false
  | [], _ :: _ => true
  | _ :: _, [] => false
  | a :: as, b :: bs => decide (a < b) || (a == b && keyLt as bs)

/-- The key/value pairs of a bucket, in key order.  Nested buckets inside it are not modelled:
`main.go` creates none inside `NOTES`. -/
structure Bucket where
  entries : List (Bytes × Bytes)
  deriving DecidableEq, Repr

/-- The invariant of a bolt bucket: keys strictly ascending, hence distinct. -/
def Bucket.ordered (b : Bucket) : Prop :=
  b.entries.Pairwise (fun x y => keyLt x.1 y.1 = true)

instance (b : Bucket) : Decidable b.ordered := by unfold Bucket.ordered; infer_instance

/-- The keys of a bucket, in iteration order. -/
def Bucket.keys (b : Bucket) : List Bytes := b.entries.map Prod.fst

/-- Seek to the first key not below `key` and read it if it is `key` (`Cursor.seek`). -/
def getEntry (key : Bytes) : List (Bytes × Bytes) → Option Bytes
  | [] => none
  | (k, v) :: rest =>
    if keyLt k key then getEntry key rest
    else if k = key then some v
    else none

/-- Seek to the first key not below `key`; replace the pair there if it has this key, insert
before it otherwise (`node.put`). -/
def putEntry (key value : Bytes) : List (Bytes × Bytes) → List (Bytes × Bytes)
  | [] => [(key, value)]
  | (k, v) :: rest =>
    if keyLt k key then (k, v) :: putEntry key value rest
    else if k = key then (key, value) :: rest
    else (key, value) :: (k, v) :: rest

/-- Seek to the first key not below `key` and remove the pair there if it has this key
(`node.del`). -/
def delEntry (key : Bytes) : List (Bytes × Bytes) → List (Bytes × Bytes)
  | [] => []
  | (k, v) :: rest =>
    if keyLt k key then (k, v) :: delEntry key rest
    else if k = key then rest
    else (k, v) :: rest

/-- The errors of `Bucket.Put` that depend on its arguments. -/
inductive BoltError where
  | ErrKeyRequired
  | ErrKeyTooLarge
  | ErrValueTooLarge
  deriving DecidableEq, Repr

/-- The constant `bolt.MaxKeySize`. -/
def MaxKeySize : Nat := 32768

/-- The constant `bolt.MaxValueSize`. -/
def MaxValueSize : Nat := 2 ^ 31 - 2

/-- The method `Bucket.Get`: the value under `key`, `none` for Go's `nil`. -/
def Bucket.Get (b : Bucket) (key : Bytes) : Option Bytes := getEntry key b.entries

/-- The method `Bucket.Put` in a writable transaction: the key must not be blank, key and value
must not exceed `MaxKeySize` and `MaxValueSize`; an existing value is overwritten. -/
def Bucket.Put (b : Bucket) (key value : Bytes) : Except BoltError Bucket :=
  if key.length = 0 then Except.error BoltError.ErrKeyRequired
  else if MaxKeySize < key.length then Except.error BoltError.ErrKeyTooLarge
  else if MaxValueSize < value.length then Except.error BoltError.ErrValueTooLarge
  else Except.ok { entries := putEntry key value b.entries }

/-- The method `Bucket.Delete` in a writable transaction: removing an absent key is no error. -/
def Bucket.Delete (b : Bucket) (key : Bytes) : Except BoltError Bucket :=
  Except.ok { entries := delEntry key b.entries }

/-- The database file `notes.db` as a request finds it. -/
inductive DBFile where
  /-- The call `bolt.Open` fails: it returns a nil `*bolt.DB`. -/
  | unopenable
  /-- The file opens and has no bucket `DB`. -/
  | noRoot
  /-- The bucket `DB` exists and has no bucket `NOTES`. -/
  | noNotes
  /-- Both buckets exist; `notes` is the content of `NOTES`. -/
  | ready (notes : Bucket)
  deriving DecidableEq, Repr

/-- The function `initializeDatabase`: create `DB` and `NOTES` where absent
(`CreateBucketIfNotExists`), keeping what is there.  The error is the start of the message that
`fmt.Errorf` builds when `bolt.Open` fails. -/
def initializeDatabase : DBFile → Except String DBFile
  | DBFile.unopenable => Except.error "could not open db"
  | DBFile.noRoot => Except.ok (DBFile.ready { entries := [] })
  | DBFile.noNotes => Except.ok (DBFile.ready { entries := [] })
  | DBFile.ready notes => Except.ok (DBFile.ready notes)

/-! ## The handlers -/

/-- The text `err.Error()` that a handler hands to `http.Error`. -/
inductive ErrorText where
  /-- The text of `errors.New(s)`. -/
  | text (s : String)
  /-- The text of an error returned by `encoding/json`. -/
  | ofJson (e : JsonError)
  deriving DecidableEq, Repr

/-- How serving a request ends. -/
inductive Outcome where
  /-- The handler wrote `body` with `json.NewEncoder(w).Encode`; the status is 200. -/
  | json (body : Bytes)
  /-- The handler called `http.Error(w, message, code)`: status `code`, the message and a
  newline as plain text. -/
  | error (code : Nat) (message : ErrorText)
  /-- The handler panicked (nil pointer dereference): no reply is written. -/
  | aborted
  deriving DecidableEq, Repr

/-- The HTTP status of a reply, if there is one. -/
def Outcome.status : Outcome → Option Nat
  | Outcome.json _ => some 200
  | Outcome.error code _ => some code
  | Outcome.aborted => none

/-- The constant `http.StatusInternalServerError`. -/
def StatusInternalServerError : Nat := 500

/-- The `bucket.ForEach` callback of `getNotes` over the pairs in key order: decode each value
and append the pointer to `notes`; stop at the first value that does not decode. -/
def forEachNote : List (Bytes × Bytes) → List (Option Note) → Except ErrorText (List (Option Note))
  | [], notes => Except.ok notes
  | (_, v) :: rest, notes =>
    match unmarshalNote v with
    | Except.error _ => Except.error (ErrorText.text "can't unmarshall note")
    | Except.ok note => forEachNote rest (notes ++ [note])

/-- The handler `getNotes`.  The error of `bolt.Open` is dropped, so `db.View` on the nil
handle panics; a missing `DB` bucket makes `.Bucket` run on a nil bucket, which panics; a
missing `NOTES` bucket is the error `can't access notes`. -/
def getNotes : DBFile → Outcome
  | DBFile.unopenable => Outcome.aborted
  | DBFile.noRoot => Outcome.aborted
  | DBFile.noNotes =>
    Outcome.error StatusInternalServerError (ErrorText.text "can't access notes")
  | DBFile.ready bucket =>
    match forEachNote bucket.entries [] with
    | Except.error err => Outcome.error StatusInternalServerError err
    | Except.ok notes => Outcome.json (encodeLine (marshalNotes notes))

/-- The handler `getNote`.  With either bucket missing `.Get` (or `.Bucket`) runs on a nil
bucket and panics. -/
def getNote (db : DBFile) (id : Bytes) : Outcome :=
  match db with
  | DBFile.unopenable => Outcome.aborted
  | DBFile.noRoot => Outcome.aborted
  | DBFile.noNotes => Outcome.aborted
  | DBFile.ready bucket =>
    match bucket.Get id with
    | none => Outcome.error StatusInternalServerError (ErrorText.text "can't find note")
    | some res =>
      match unmarshalNote res with
      | Except.error _ =>
        Outcome.error StatusInternalServerError (ErrorText.text "can't unmarshall note")
      | Except.ok note => Outcome.json (encodeLine (marshalNotePtr note))

/-- The handler `createNote` at clock reading `now`: the reply and the file afterwards.  The
request body is decoded before the file is opened; `json.Marshal` of a `Note` cannot fail. -/
def createNote (db : DBFile) (now : Time) (reqBody : Bytes) : Outcome × DBFile :=
  match unmarshalNewNote reqBody with
  | Except.error err1 => (Outcome.error StatusInternalServerError (ErrorText.ofJson err1), db)
  | Except.ok newNote =>
    let id := now.Format
    let note : Note := { Id := id, Title := newNote.Title, Body := newNote.Body }
    let noteBytes := marshalNote note
    match db with
    | DBFile.unopenable => (Outcome.aborted, db)
    | DBFile.noRoot => (Outcome.aborted, db)
    | DBFile.noNotes => (Outcome.aborted, db)
    | DBFile.ready bucket =>
      match bucket.Put id noteBytes with
      | Except.error _ =>
        (Outcome.error StatusInternalServerError (ErrorText.text "can't create note"), db)
      | Except.ok bucket1 => (Outcome.json (encodeLine (marshalNote note)), DBFile.ready bucket1)

/-- The handler `deleteNote`: the reply and the file afterwards. -/
def deleteNote (db : DBFile) (id : Bytes) : Outcome × DBFile :=
  match db with
  | DBFile.unopenable => (Outcome.aborted, db)
  | DBFile.noRoot => (Outcome.aborted, db)
  | DBFile.noNotes => (Outcome.aborted, db)
  | DBFile.ready bucket =>
    match bucket.Delete id with
    | Except.error _ =>
      (Outcome.error StatusInternalServerError (ErrorText.text "can't delete note"), db)
    | Except.ok bucket1 =>
      (Outcome.json (encodeLine (appendString (str "deleted note " ++ id))), DBFile.ready bucket1)

/-! ## Runs of requests and what a client reads -/

/-- The note that `createNote` builds at clock reading `now` from a request body that decodes. -/
def noteOf (now : Time) (reqBody : Bytes) : Option Note :=
  match unmarshalNewNote reqBody with
  | Except.ok newNote => some { Id := now.Format, Title := newNote.Title, Body := newNote.Body }
  | Except.error _ => none

/-- A request that writes to the store: `POST /note` at a clock reading, or `DELETE /note/{id}`. -/
inductive Request where
  | create (now : Time) (reqBody : Bytes)
  | delete (id : Bytes)
  deriving Repr

/-- Serve one writing request: the reply and the file afterwards. -/
def serve (db : DBFile) : Request → Outcome × DBFile
  | Request.create now reqBody => createNote db now reqBody
  | Request.delete id => deleteNote db id

/-- Serve writing requests one after the other: the file afterwards. -/
def serveAll : DBFile → List Request → DBFile
  | db, [] => db
  | db, r :: rest => serveAll (serve db r).2 rest

/-- Serve `createNote` calls one after the other: the replies and the file afterwards. -/
def createAll : DBFile → List (Time × Bytes) → List Outcome × DBFile
  | db, [] => ([], db)
  | db, (now, reqBody) :: rest =>
    ((createNote db now reqBody).1 :: (createAll (createNote db now reqBody).2 rest).1,
      (createAll (createNote db now reqBody).2 rest).2)

/-- The member names of a reply body that is a JSON object, in the order written. -/
def memberNames (body : Bytes) : Option (List Bytes) :=
  match parseJSON body with
  | some (JValue.object members) => some (members.map Prod.fst)
  | _ => none

/-- Every value of the bucket decodes to a note whose `Id` is the key it is stored under. -/
def Bucket.keysMatchIds (b : Bucket) : Prop :=
  ∀ p ∈ b.entries, ∃ note : Note, unmarshalNote p.2 = Except.ok (some note) ∧ note.Id = p.1

/-- The pairs that store the given notes, each encoded under its `Id`. -/
def entriesOf (notes : List Note) : List (Bytes × Bytes) :=
  notes.map (fun n => (n.Id, marshalNote n))

/-- The JSON object a client reads for a note: the members `Id`, `Title` and `Body`, in this
order, each a string. -/
def noteObject (n : Note) : JValue :=
  JValue.object [(str "Id", JValue.string n.Id), (str "Title", JValue.string n.Title),
    (str "Body", JValue.string n.Body)]

/-- The JSON value a client reads for an entry of a listing: `null` for a nil pointer, the
object of the note otherwise. -/
def entryValue : Option Note → JValue
  | none => JValue.null
  | some n => noteObject n

/-- A `createNote` call that `Bucket.Put` can store: the request body decodes, the id is not
blank, and the id and the encoded note are within `MaxKeySize` and `MaxValueSize`. -/
def storable (now : Time) (reqBody : Bytes) : Bool :=
  match noteOf now reqBody with
  | some note =>
    decide (note.Id.length ≠ 0) && decide (note.Id.length ≤ MaxKeySize)
      && decide ((marshalNote note).length ≤ MaxValueSize)
  | none => false

/-- Two decimal digits of a number below one hundred. -/
def digits2 (n : Nat) : Bytes := [0x30 + n / 10, 0x30 + n % 10]

/-- Four decimal digits of a number below ten thousand. -/
def digits4 (n : Nat) : Bytes :=
  [0x30 + n / 1000, 0x30 + n / 100 % 10, 0x30 + n / 10 % 10, 0x30 + n % 10]

/-- The pattern `YYYYMMDDHHMMSS` of the specification, written out for a clock reading: four
digits of the year, then two digits each of month, day, hour, minute and second. -/
def timestamp14 (t : Time) : Bytes :=
  digits4 t.year.toNat ++ digits2 t.month ++ digits2 t.day ++ digits2 t.hour
    ++ digits2 t.minute ++ digits2 t.second

/-- A request body with the given title, of plain ASCII letters, and an empty body text. -/
def titleRequest (title : Bytes) : Bytes :=
  str "\x7b\"Title\":\"" ++ title ++ str "\",\"Body\":\"\"\x7d"

/-! ## Sample inputs -/

/-- A clock reading: 2 January 2024, 03:04:05. -/
def exampleClock : Time :=
  { year := 2024, month := 1, day := 2, hour := 3, minute := 4, second := 5, nanosecond := 0 }

/-- The request body of the scenario in the specification. -/
def exampleRequest : Bytes := str "\x7b\"title\":\"Groceries\",\"body\":\"milk, eggs\"\x7d"

/-- The note `createNote` builds from `exampleRequest` at `exampleClock`. -/
def exampleNote : Note :=
  { Id := str "20240102030405", Title := str "Groceries", Body := str "milk, eggs" }

/-- A reading of the clock half a second after `exampleClock`, within the same second. -/
def sameSecondClock : Time := { exampleClock with nanosecond := 500000000 }

/-- A reading of the clock one minute before `exampleClock`. -/
def earlierClock : Time := { exampleClock with minute := 3 }

/-- A second request body, with upper-case member names and an escape. -/
def otherRequest : Bytes := str "\x7b\"TITLE\":\"Todo\",\"BODY\":\"call \\u0026 write\"\x7d"

/-- The note `createNote` builds from `otherRequest` at `earlierClock`. -/
def otherNote : Note :=
  { Id := str "20240102030305", Title := str "Todo", Body := str "call & write" }

/-- A NOTES bucket that holds `otherNote` and `exampleNote`. -/
def exampleBucket : Bucket :=
  { entries := [(otherNote.Id, marshalNote otherNote), (exampleNote.Id, marshalNote exampleNote)] }

/-- A request body whose title is 2^31 letters `a`: the encoded note is larger than
`MaxValueSize`. -/
def oversizeRequest : Bytes := titleRequest (List.replicate (2 ^ 31) 0x61)

/-- A reading of the clock in the year 10000. -/
def farClock : Time := { exampleClock with year := 10000 }

/-! ## Notions used in the proofs -/

/-- A JSON value that is a string carries valid UTF-8. -/
def stringValid (v : JValue) : Prop := ∀ s, v = JValue.string s → Valid s = true

/-- The string values among the members of an object are valid UTF-8. -/
def membersValid (ms : List (Bytes × JValue)) : Prop := ∀ p ∈ ms, stringValid p.2

/-- A JSON value that is an object has valid string members. -/
def objectValid (v : JValue) : Prop := ∀ ms, v = JValue.object ms → membersValid ms

/-- The well-formed multi-byte encodings: `Multi b rest d` says that `b :: rest` starts with a
valid encoding of two, three or four bytes and that `d` is the rune and width `DecodeRune` returns
for it. -/
inductive Multi : Nat → Bytes → Nat × Nat → Prop
  | two (b b1 : Nat) (r : Bytes) : 0xC2 ≤ b → b ≤ 0xDF → 0x80 ≤ b1 → b1 ≤ 0xBF →
      Multi b (b1 :: r) (b % 32 * 64 + b1 % 64, 2)
  | three (b b1 b2 : Nat) (r : Bytes) : 0xE0 ≤ b → b ≤ 0xEF →
      (if b = 0xE0 then 0xA0 else 0x80) ≤ b1 → b1 ≤ (if b = 0xED then 0x9F else 0xBF) →
      0x80 ≤ b2 → b2 ≤ 0xBF →
      Multi b (b1 :: b2 :: r) (b % 16 * 4096 + b1 % 64 * 64 + b2 % 64, 3)
  | four (b b1 b2 b3 : Nat) (r : Bytes) : 0xF0 ≤ b → b ≤ 0xF4 →
      (if b = 0xF0 then 0x90 else 0x80) ≤ b1 → b1 ≤ (if b = 0xF4 then 0x8F else 0xBF) →
      0x80 ≤ b2 → b2 ≤ 0xBF → 0x80 ≤ b3 → b3 ≤ 0xBF →
      Multi b (b1 :: b2 :: b3 :: r) (b % 8 * 262144 + b1 % 64 * 4096 + b2 % 64 * 64 + b3 % 64, 4)

/-! ## Facts about `unicode/utf8` -/

/-- Membership in an accept range. -/
theorem inRange_iff (lo hi b : Nat) : inRange lo hi b = true ↔ lo ≤ b ∧ b ≤ hi := by
  simp [inRange]

/-- A byte string with a non-ASCII lead byte decodes to `RuneError` of width one or starts with a
well-formed multi-byte encoding. -/
theorem decodeRune_cases (b : Nat) (rest : Bytes) (hb : ¬ b < 0x80) :
    decodeRune (b :: rest) = (RuneError, 1) ∨ Multi b rest (decodeRune (b :: rest)) := by
  unfold decodeRune
  simp only [hb, if_false]
  by_cases h1 : b < 0xC2
  · simp [h1]
  simp only [h1, if_false]
  by_cases h2 : b ≤ 0xDF
  · simp only [h2, if_true]
    rcases rest with _ | ⟨b1, r⟩
    · simp
    · simp only
      by_cases hr : inRange 0x80 0xBF b1 = true
      · simp only [hr, if_true]
        rw [inRange_iff] at hr
        exact Or.inr (Multi.two b b1 r (by omega) h2 hr.1 hr.2)
      · simp [hr]
  simp only [h2, if_false]
  by_cases h3 : b ≤ 0xEF
  · simp only [h3, if_true]
    rcases rest with _ | ⟨b1, _ | ⟨b2, r⟩⟩
    · simp
    · simp
    · simp only
      by_cases hr : (inRange (if b = 0xE0 then 0xA0 else 0x80) (if b = 0xED then 0x9F else 0xBF) b1
            && inRange 0x80 0xBF b2) = true
      · simp only [hr, if_true]
        rw [Bool.and_eq_true, inRange_iff, inRange_iff] at hr
        exact Or.inr (Multi.three b b1 b2 r (by omega) h3 hr.1.1 hr.1.2 hr.2.1 hr.2.2)
      · simp [hr]
  simp only [h3, if_false]
  by_cases h4 : b ≤ 0xF4
  · simp only [h4, if_true]
    rcases rest with _ | ⟨b1, _ | ⟨b2, _ | ⟨b3, r⟩⟩⟩
    · simp
    · simp
    · simp
    · simp only
      by_cases hr : (inRange (if b = 0xF0 then 0x90 else 0x80) (if b = 0xF4 then 0x8F else 0xBF) b1
            && inRange 0x80 0xBF b2 && inRange 0x80 0xBF b3) = true
      · simp only [hr, if_true]
        rw [Bool.and_eq_true, Bool.and_eq_true, inRange_iff, inRange_iff, inRange_iff] at hr
        exact Or.inr (Multi.four b b1 b2 b3 r (by omega) h4 hr.1.1.1 hr.1.1.2 hr.1.2.1 hr.1.2.2
          hr.2.1 hr.2.2)
      · simp [hr]
  · simp [h4]

/-- Encoding the decoded rune gives back the bytes it was decoded from. -/
theorem Multi.encode {b : Nat} {rest : Bytes} {d : Nat × Nat} (h : Multi b rest d) :
    encodeRune d.1 = (b :: rest).take d.2 := by
  cases h with
  | two b1 r h1 h2 h3 h4 =>
    unfold encodeRune
    have e1 : ¬ (b % 32 * 64 + b1 % 64 ≤ 0x7F) := by omega
    have e2 : b % 32 * 64 + b1 % 64 ≤ 0x7FF := by omega
    simp only [e1, e2, if_false, if_true, List.take_succ_cons, List.take_zero]
    congr 1
    · omega
    · congr 1; omega
  | three b1 b2 r h1 h2 h3 h4 h5 h6 =>
    unfold encodeRune MaxRune
    split_ifs at h3 h4 <;>
    · have e1 : ¬ (b % 16 * 4096 + b1 % 64 * 64 + b2 % 64 ≤ 0x7F) := by omega
      have e2 : ¬ (b % 16 * 4096 + b1 % 64 * 64 + b2 % 64 ≤ 0x7FF) := by omega
      have e3 : ¬ (0x10FFFF < b % 16 * 4096 + b1 % 64 * 64 + b2 % 64 ∨
          (0xD800 ≤ b % 16 * 4096 + b1 % 64 * 64 + b2 % 64 ∧
            b % 16 * 4096 + b1 % 64 * 64 + b2 % 64 ≤ 0xDFFF)) := by omega
      have e4 : b % 16 * 4096 + b1 % 64 * 64 + b2 % 64 ≤ 0xFFFF := by omega
      simp only [e1, e2, e3, e4, if_false, if_true, List.take_succ_cons, List.take_zero]
      congr 1
      · omega
      · congr 1
        · omega
        · congr 1; omega
  | four b1 b2 b3 r h1 h2 h3 h4 h5 h6 h7 h8 =>
    unfold encodeRune MaxRune
    split_ifs at h3 h4 <;>
    · have e1 : ¬ (b % 8 * 262144 + b1 % 64 * 4096 + b2 % 64 * 64 + b3 % 64 ≤ 0x7F) := by omega
      have e2 : ¬ (b % 8 * 262144 + b1 % 64 * 4096 + b2 % 64 * 64 + b3 % 64 ≤ 0x7FF) := by omega
      have e3 : ¬ (0x10FFFF < b % 8 * 262144 + b1 % 64 * 4096 + b2 % 64 * 64 + b3 % 64 ∨
          (0xD800 ≤ b % 8 * 262144 + b1 % 64 * 4096 + b2 % 64 * 64 + b3 % 64 ∧
            b % 8 * 262144 + b1 % 64 * 4096 + b2 % 64 * 64 + b3 % 64 ≤ 0xDFFF)) := by omega
      have e4 : ¬ (b % 8 * 262144 + b1 % 64 * 4096 + b2 % 64 * 64 + b3 % 64 ≤ 0xFFFF) := by omega
      simp only [e1, e2, e3, e4, if_false, if_true, List.take_succ_cons, List.take_zero]
      congr 1
      · omega
      · congr 1
        · omega
        · congr 1
          · omega
          · congr 1; omega

/-- A well-formed encoding is never the width-one error. -/
theorem Multi.two_le {b : Nat} {rest : Bytes} {d : Nat × Nat} (h : Multi b rest d) :
    2 ≤ d.2 ∧ d.2 - 1 ≤ rest.length ∧ 0x80 ≤ b := by
  cases h <;> simp <;> omega

/-- The decoder reads a well-formed encoding as such. -/
theorem Multi.decode {b : Nat} {rest : Bytes} {d : Nat × Nat} (h : Multi b rest d) :
    decodeRune (b :: rest) = d := by
  cases h with
  | two b1 r h1 h2 h3 h4 =>
    have : inRange 0x80 0xBF b1 = true := by rw [inRange_iff]; omega
    have h0 : ¬ b < 0x80 := by omega
    have h5 : ¬ b < 0xC2 := by omega
    simp [decodeRune, h0, h5, h2, this]
  | three b1 b2 r h1 h2 h3 h4 h5 h6 =>
    have i1 : inRange (if b = 0xE0 then 0xA0 else 0x80) (if b = 0xED then 0x9F else 0xBF) b1
        = true := by rw [inRange_iff]; exact ⟨h3, h4⟩
    have i2 : inRange 0x80 0xBF b2 = true := by rw [inRange_iff]; omega
    have h0 : ¬ b < 0x80 := by omega
    have h7 : ¬ b < 0xC2 := by omega
    have h8 : ¬ b ≤ 0xDF := by omega
    simp [decodeRune, h0, h7, h8, h2, i1, i2]
  | four b1 b2 b3 r h1 h2 h3 h4 h5 h6 h7 h8 =>
    have i1 : inRange (if b = 0xF0 then 0x90 else 0x80) (if b = 0xF4 then 0x8F else 0xBF) b1
        = true := by rw [inRange_iff]; exact ⟨h3, h4⟩
    have i2 : inRange 0x80 0xBF b2 = true := by rw [inRange_iff]; omega
    have i3 : inRange 0x80 0xBF b3 = true := by rw [inRange_iff]; omega
    have h0 : ¬ b < 0x80 := by omega
    have h9 : ¬ b < 0xC2 := by omega
    have h10 : ¬ b ≤ 0xDF := by omega
    have h11 : ¬ b ≤ 0xEF := by omega
    simp [decodeRune, h0, h9, h10, h11, h2, i1, i2, i3]

/-- A well-formed encoding stays one when the bytes after it change. -/
theorem Multi.extend {b : Nat} {rest : Bytes} {d : Nat × Nat} (h : Multi b rest d) (xs : Bytes) :
    Multi b (rest.take (d.2 - 1) ++ xs) d := by
  cases h with
  | two b1 r h1 h2 h3 h4 => exact Multi.two b b1 _ h1 h2 h3 h4
  | three b1 b2 r h1 h2 h3 h4 h5 h6 => exact Multi.three b b1 b2 _ h1 h2 h3 h4 h5 h6
  | four b1 b2 b3 r h1 h2 h3 h4 h5 h6 h7 h8 => exact Multi.four b b1 b2 b3 _ h1 h2 h3 h4 h5 h6 h7 h8

/-- A well-formed encoding stays one when bytes are appended. -/
theorem Multi.append {b : Nat} {rest : Bytes} {d : Nat × Nat} (h : Multi b rest d) (xs : Bytes) :
    Multi b (rest ++ xs) d := by
  cases h with
  | two b1 r h1 h2 h3 h4 => exact Multi.two b b1 _ h1 h2 h3 h4
  | three b1 b2 r h1 h2 h3 h4 h5 h6 => exact Multi.three b b1 b2 _ h1 h2 h3 h4 h5 h6
  | four b1 b2 b3 r h1 h2 h3 h4 h5 h6 h7 h8 => exact Multi.four b b1 b2 b3 _ h1 h2 h3 h4 h5 h6 h7 h8

/-- The loop of `Valid` does not depend on the fuel once it covers the input. -/
theorem validAux_fuel (f1 : Nat) : ∀ (f2 : Nat) (s : Bytes), s.length ≤ f1 → s.length ≤ f2 →
    validAux f1 s = validAux f2 s := by
  induction f1 with
  | zero =>
    intro f2 s h1 _
    have : s = [] := List.length_eq_zero.mp (by omega)
    subst this
    cases f2 <;> simp [validAux]
  | succ f1 ih =>
    intro f2 s h1 h2
    cases s with
    | nil => cases f2 <;> simp [validAux]
    | cons b t =>
      obtain ⟨k, rfl⟩ : ∃ k, f2 = k + 1 := ⟨f2 - 1, by simp at h2; omega⟩
      simp only [List.length_cons] at h1 h2
      simp only [validAux]
      have hd : ∀ n, (List.drop n t).length ≤ t.length := by intro n; simp
      rw [ih k t (by omega) (by omega),
        ih k (List.drop ((decodeRune (b :: t)).2 - 1) t) (by have := hd ((decodeRune (b :: t)).2 - 1); omega)
          (by have := hd ((decodeRune (b :: t)).2 - 1); omega)]

/-- The empty string is valid UTF-8. -/
theorem Valid_nil : Valid [] = true := rfl

/-- An ASCII byte is a rune of its own. -/
theorem Valid_cons_ascii (b : Nat) (t : Bytes) (hb : b < 0x80) : Valid (b :: t) = Valid t := by
  simp [Valid, validAux, hb]

/-- After a well-formed multi-byte rune, validity is that of what follows it. -/
theorem Valid_cons_multi {b : Nat} {t : Bytes} {d : Nat × Nat} (h : Multi b t d) :
    Valid (b :: t) = Valid (t.drop (d.2 - 1)) := by
  obtain ⟨h2, -, hb⟩ := h.two_le
  have hb' : ¬ b < 0x80 := by omega
  have hne : ¬ (d.1 = RuneError ∧ d.2 = 1) := by omega
  simp only [Valid, validAux, List.length_cons, hb', if_false, h.decode, hne]
  exact validAux_fuel _ _ _ (by simp) le_rfl

/-- A byte string that is valid starts with an ASCII byte or a well-formed multi-byte rune. -/
theorem Valid_cons_cases (b : Nat) (t : Bytes) (h : Valid (b :: t) = true) :
    b < 0x80 ∨ Multi b t (decodeRune (b :: t)) := by
  by_cases hb : b < 0x80
  · exact Or.inl hb
  · rcases decodeRune_cases b t hb with he | hm
    · simp [Valid, validAux, hb, he] at h
    · exact Or.inr hm

/-- Valid UTF-8 is closed under concatenation. -/
theorem Valid_append (n : Nat) : ∀ (a b : Bytes), a.length ≤ n → Valid a = true →
    Valid b = true → Valid (a ++ b) = true := by
  induction n with
  | zero =>
    intro a b h _ hb
    have : a = [] := List.length_eq_zero.mp (by omega)
    subst this; simpa using hb
  | succ n ih =>
    intro a b h ha hb
    cases a with
    | nil => simpa using hb
    | cons x t =>
      simp only [List.length_cons] at h
      rcases Valid_cons_cases x t ha with hx | hm
      · rw [List.cons_append, Valid_cons_ascii _ _ hx]
        rw [Valid_cons_ascii _ _ hx] at ha
        exact ih t b (by omega) ha hb
      · rw [Valid_cons_multi hm] at ha
        rw [List.cons_append, Valid_cons_multi (hm.append b)]
        obtain ⟨-, hlen, -⟩ := hm.two_le
        rw [List.drop_append_of_le_length hlen]
        exact ih _ b (by simp; omega) ha hb

/-- What `EncodeRune` writes is valid UTF-8. -/
theorem Valid_encodeRune (r : Nat) : Valid (encodeRune r) = true := by
  unfold encodeRune MaxRune
  split_ifs with h1 h2 h3 h4
  · exact (Valid_cons_ascii r [] (by omega)).trans Valid_nil
  · have hm : Multi (0xC0 + r / 64) [0x80 + r % 64]
        ((0xC0 + r / 64) % 32 * 64 + (0x80 + r % 64) % 64, 2) :=
      Multi.two _ _ _ (by omega) (by omega) (by omega) (by omega)
    rw [Valid_cons_multi hm]; rfl
  · decide
  · have hm : Multi (0xE0 + r / 4096) [0x80 + r / 64 % 64, 0x80 + r % 64]
        ((0xE0 + r / 4096) % 16 * 4096 + (0x80 + r / 64 % 64) % 64 * 64 + (0x80 + r % 64) % 64, 3) :=
      Multi.three _ _ _ _ (by omega) (by omega) (by split_ifs <;> omega) (by split_ifs <;> omega)
        (by omega) (by omega)
    rw [Valid_cons_multi hm]; rfl
  · have hm : Multi (0xF0 + r / 262144) [0x80 + r / 4096 % 64, 0x80 + r / 64 % 64, 0x80 + r % 64]
        ((0xF0 + r / 262144) % 8 * 262144 + (0x80 + r / 4096 % 64) % 64 * 4096
          + (0x80 + r / 64 % 64) % 64 * 64 + (0x80 + r % 64) % 64, 4) :=
      Multi.four _ _ _ _ _ (by omega) (by omega) (by split_ifs <;> omega) (by split_ifs <;> omega)
        (by omega) (by omega) (by omega) (by omega)
    rw [Valid_cons_multi hm]; rfl

/-- Appending one ASCII byte keeps valid UTF-8 valid. -/
theorem Valid_snoc_ascii (acc : Bytes) (b : Nat) (ha : Valid acc = true) (hb : b < 0x80) :
    Valid (acc ++ [b]) = true :=
  Valid_append acc.length acc [b] le_rfl ha ((Valid_cons_ascii b [] hb).trans Valid_nil)

/-- Appending an encoded rune keeps valid UTF-8 valid. -/
theorem Valid_snoc_rune (acc : Bytes) (r : Nat) (ha : Valid acc = true) :
    Valid (acc ++ encodeRune r) = true :=
  Valid_append acc.length acc _ le_rfl ha (Valid_encodeRune r)

/-- A byte string of ASCII only is valid UTF-8. -/
theorem Valid_of_ascii : ∀ (s : Bytes), (∀ b ∈ s, b < 0x80) → Valid s = true
  | [], _ => rfl
  | b :: t, h => by
    rw [Valid_cons_ascii b t (h b (List.mem_cons_self _ _))]
    exact Valid_of_ascii t (fun c hc => h c (List.mem_cons_of_mem _ hc))

/-! ## String literals: the encoder read back by the decoder -/

/-- The hexadecimal digit written for a nibble reads back as the nibble. -/
theorem hexValue_hex (n : Nat) (h : n < 16) : hexValue (hex n) = some n := by
  interval_cases n <;> rfl

/-- The escape `\u00XY` written for an ASCII byte reads back as that byte. -/
theorem getu4_escape (b : Nat) (h : b < 0x80) (xs : Bytes) :
    getu4 (0x5C :: 0x75 :: 0x30 :: 0x30 :: hex (b / 16) :: hex (b % 16) :: xs) = some b := by
  have h1 := hexValue_hex (b / 16) (by omega)
  have h2 := hexValue_hex (b % 16) (by omega)
  have h0 : hexValue 0x30 = some 0 := rfl
  simp only [getu4, h0, h1, h2]
  congr 1
  omega

/-- One step of the encoder on an ASCII byte, read back by the decoder. -/
theorem unquoteAux_ascii (fuel b : Nat) (h : b < 0x80) (xs acc : Bytes) :
    unquoteAux (fuel + 1) ((if htmlSafeSet b then [b] else escapeByte b) ++ xs) acc
      = unquoteAux fuel xs (acc ++ [b]) := by
  by_cases hs : htmlSafeSet b = true
  · simp only [hs, if_true, List.singleton_append]
    simp only [htmlSafeSet, Bool.and_eq_true, decide_eq_true_eq, Bool.not_eq_true',
      Bool.or_eq_false_iff, beq_eq_false_iff_ne, ne_eq] at hs
    have h1 : ¬ b = 0x22 := hs.2.1.1.1.1
    have h2 : ¬ b = 0x5C := hs.2.2
    have h3 : ¬ b < 0x20 := by omega
    simp [unquoteAux, h1, h2, h3, h]
  · simp only [hs, if_false]
    by_cases e1 : b = 0x5C
    · subst e1; simp [escapeByte, unquoteAux]
    by_cases e2 : b = 0x22
    · subst e2; simp [escapeByte, unquoteAux]
    by_cases e3 : b = 0x0A
    · subst e3; simp [escapeByte, unquoteAux]
    by_cases e4 : b = 0x0D
    · subst e4; simp [escapeByte, unquoteAux]
    by_cases e5 : b = 0x09
    · subst e5; simp [escapeByte, unquoteAux]
    have hg := getu4_escape b h xs
    have hsur : isSurrogate b = false := by
      simp only [isSurrogate, Bool.and_eq_false_iff, decide_eq_false_iff_not]; omega
    have henc : encodeRune b = [b] := by
      have : b ≤ 0x7F := by omega
      simp [encodeRune, this]
    simp only [escapeByte, e1, e2, e3, e4, e5, or_self, if_false, List.cons_append,
      List.nil_append]
    simp [unquoteAux, hg, hsur, henc]

/-- One step of the decoder over a copied multi-byte rune. -/
theorem unquoteAux_multi {b : Nat} {t : Bytes} {d : Nat × Nat} (h : Multi b t d) (fuel : Nat)
    (xs acc : Bytes) :
    unquoteAux (fuel + 1) ((b :: t).take d.2 ++ xs) acc
      = unquoteAux fuel xs (acc ++ (b :: t).take d.2) := by
  obtain ⟨h2, hlen, hb⟩ := h.two_le
  have hd := (h.extend xs).decode
  have henc := h.encode
  obtain ⟨k, hk⟩ : ∃ k, d.2 = k + 1 := ⟨d.2 - 1, by omega⟩
  have hk' : d.2 - 1 = k := by omega
  rw [hk'] at hd hlen
  rw [hk] at henc
  rw [hk, List.take_succ_cons, List.cons_append]
  have c1 : ¬ b = 0x22 := by omega
  have c2 : ¬ b = 0x5C := by omega
  have c3 : ¬ b < 0x20 := by omega
  have c4 : ¬ b < 0x80 := by omega
  have hdrop : (List.take k t ++ xs).drop k = xs := by
    have hl : (List.take k t).length = k := by simp [List.length_take]; omega
    have := List.drop_left (List.take k t) xs
    rwa [hl] at this
  simp only [unquoteAux, c1, c2, c3, c4, if_false, hd, hk', hdrop, henc, List.take_succ_cons]

/-- One step of the decoder over the escape written for U+2028 or U+2029. -/
theorem unquoteAux_lineSep (r : Nat) (h : r = 0x2028 ∨ r = 0x2029) (fuel : Nat) (xs acc : Bytes) :
    unquoteAux (fuel + 1) ([0x5C, 0x75, 0x32, 0x30, 0x32, hex (r % 16)] ++ xs) acc
      = unquoteAux fuel xs (acc ++ encodeRune r) := by
  rcases h with h | h <;> subst h <;>
    simp [unquoteAux, getu4, hexValue, hex, isSurrogate]

/-- Decoding what the string encoder wrote for valid UTF-8 gives the string back, and leaves the
input after the closing quote. -/
theorem unquoteAux_appendStringAux (fuel : Nat) : ∀ (s : Bytes), s.length ≤ fuel →
    validAux fuel s = true → ∀ (rest acc : Bytes) (fuel2 : Nat),
    (appendStringAux fuel s).length < fuel2 →
    unquoteAux fuel2 (appendStringAux fuel s ++ 0x22 :: rest) acc = some (acc ++ s, rest) := by
  induction fuel with
  | zero =>
    intro s hs _ rest acc fuel2 hf
    have : s = [] := List.length_eq_zero.mp (by omega)
    subst this
    obtain ⟨k, rfl⟩ : ∃ k, fuel2 = k + 1 := ⟨fuel2 - 1, by omega⟩
    simp [appendStringAux, unquoteAux]
  | succ fuel ih =>
    intro s hs hv rest acc fuel2 hf
    obtain ⟨k, rfl⟩ : ∃ k, fuel2 = k + 1 := ⟨fuel2 - 1, by omega⟩
    cases s with
    | nil => simp [appendStringAux, unquoteAux]
    | cons b t =>
      simp only [List.length_cons] at hs
      by_cases hb : b < 0x80
      · simp only [appendStringAux, hb, if_true, validAux] at hv hf ⊢
        rw [List.append_assoc, unquoteAux_ascii k b hb]
        rw [ih t (by omega) hv rest (acc ++ [b]) k]
        · simp
        · simp only [List.length_append] at hf
          have : 1 ≤ (if htmlSafeSet b = true then [b] else escapeByte b).length := by
            unfold escapeByte; split_ifs <;> simp
          omega
      · simp only [appendStringAux, validAux, hb, if_false] at hv hf ⊢
        rcases decodeRune_cases b t hb with he | hm
        · simp [he] at hv
        · have hne : ¬ ((decodeRune (b :: t)).1 = RuneError ∧ (decodeRune (b :: t)).2 = 1) := by
            have := hm.two_le; omega
          obtain ⟨h2, hlen, -⟩ := hm.two_le
          simp only [hne, if_false] at hv hf ⊢
          have hdl : (List.drop ((decodeRune (b :: t)).2 - 1) t).length ≤ fuel := by
            simp only [List.length_drop]; omega
          have hsplit : (b :: t).take (decodeRune (b :: t)).2
              ++ List.drop ((decodeRune (b :: t)).2 - 1) t = b :: t := by
            obtain ⟨j, hj⟩ : ∃ j, (decodeRune (b :: t)).2 = j + 1 :=
              ⟨(decodeRune (b :: t)).2 - 1, by omega⟩
            rw [hj]; simp
          by_cases hl : (decodeRune (b :: t)).1 = 0x2028 ∨ (decodeRune (b :: t)).1 = 0x2029
          · simp only [hl, if_true] at hf ⊢
            rw [List.append_assoc, unquoteAux_lineSep _ hl, hm.encode]
            rw [ih _ hdl hv rest _ k]
            · rw [List.append_assoc, hsplit]
            · simp only [List.length_append, List.length_cons] at hf
              omega
          · simp only [hl, if_false] at hf ⊢
            rw [List.append_assoc, unquoteAux_multi hm]
            rw [ih _ hdl hv rest _ k]
            · rw [List.append_assoc, hsplit]
            · simp only [List.length_append, List.length_take] at hf
              simp only [List.length_cons] at hf
              omega

/-- A quoted string of valid UTF-8 reads back as the string. -/
theorem unquote_appendString (s : Bytes) (hs : Valid s = true) (rest : Bytes) :
    unquote (appendStringAux s.length s ++ 0x22 :: rest) = some (s, rest) := by
  unfold unquote
  have := unquoteAux_appendStringAux s.length s le_rfl hs rest [] 
    (appendStringAux s.length s ++ 0x22 :: rest).length (by simp)
  simpa using this

/-- The text decoded from a string literal is valid UTF-8. -/
theorem unquoteAux_valid (fuel : Nat) : ∀ (input acc out rest : Bytes),
    unquoteAux fuel input acc = some (out, rest) → Valid acc = true → Valid out = true := by
  induction fuel with
  | zero => intro input acc out rest h; simp [unquoteAux] at h
  | succ fuel ih =>
    intro input acc out rest h ha
    cases input with
    | nil => simp [unquoteAux] at h
    | cons c t =>
      simp only [unquoteAux] at h
      by_cases h1 : c = 0x22
      · simp only [h1, if_true, Option.some.injEq, Prod.mk.injEq] at h
        rw [← h.1]; exact ha
      simp only [h1, if_false] at h
      by_cases h2 : c = 0x5C
      · simp only [h2, if_true] at h
        cases t with
        | nil => simp at h
        | cons e t1 =>
          simp only at h
          by_cases g1 : e = 0x22 ∨ e = 0x5C ∨ e = 0x2F
          · simp only [g1, if_true] at h
            exact ih _ _ _ _ h (Valid_snoc_ascii acc e ha (by omega))
          simp only [g1, if_false] at h
          by_cases g2 : e = 0x62
          · simp only [g2, if_true] at h
            exact ih _ _ _ _ h (Valid_snoc_ascii acc _ ha (by omega))
          simp only [g2, if_false] at h
          by_cases g3 : e = 0x66
          · simp only [g3, if_true] at h
            exact ih _ _ _ _ h (Valid_snoc_ascii acc _ ha (by omega))
          simp only [g3, if_false] at h
          by_cases g4 : e = 0x6E
          · simp only [g4, if_true] at h
            exact ih _ _ _ _ h (Valid_snoc_ascii acc _ ha (by omega))
          simp only [g4, if_false] at h
          by_cases g5 : e = 0x72
          · simp only [g5, if_true] at h
            exact ih _ _ _ _ h (Valid_snoc_ascii acc _ ha (by omega))
          simp only [g5, if_false] at h
          by_cases g6 : e = 0x74
          · simp only [g6, if_true] at h
            exact ih _ _ _ _ h (Valid_snoc_ascii acc _ ha (by omega))
          simp only [g6, if_false] at h
          by_cases g7 : e = 0x75
          · simp only [g7, if_true] at h
            cases hg : getu4 (0x5C :: 0x75 :: t1) with
            | none => simp [hg] at h
            | some rr =>
              simp only [hg] at h
              split_ifs at h
              · exact ih _ _ _ _ h (Valid_snoc_rune acc _ ha)
              · exact ih _ _ _ _ h (Valid_snoc_rune acc _ ha)
              · exact ih _ _ _ _ h (Valid_snoc_rune acc _ ha)
          · simp [g7] at h
      simp only [h2, if_false] at h
      by_cases h3 : c < 0x20
      · simp [h3] at h
      simp only [h3, if_false] at h
      by_cases h4 : c < 0x80
      · simp only [h4, if_true] at h
        exact ih _ _ _ _ h (Valid_snoc_ascii acc c ha h4)
      · simp only [h4, if_false] at h
        exact ih _ _ _ _ h (Valid_snoc_rune acc _ ha)

/-- The text of a string literal is valid UTF-8. -/
theorem unquote_valid (input out rest : Bytes) (h : unquote input = some (out, rest)) :
    Valid out = true :=
  unquoteAux_valid _ _ _ _ _ h Valid_nil

/-- The string encoder copies a string of safe ASCII bytes. -/
theorem appendStringAux_plain (fuel : Nat) : ∀ (s : Bytes), s.length ≤ fuel →
    (∀ b ∈ s, htmlSafeSet b = true) → appendStringAux fuel s = s := by
  induction fuel with
  | zero =>
    intro s h _
    have : s = [] := List.length_eq_zero.mp (by omega)
    subst this; rfl
  | succ fuel ih =>
    intro s h hs
    cases s with
    | nil => rfl
    | cons b t =>
      have hb := hs b (List.mem_cons_self _ _)
      have hlt : b < 0x80 := by
        simp only [htmlSafeSet, Bool.and_eq_true, decide_eq_true_eq] at hb
        exact hb.1.2
      simp only [List.length_cons] at h
      simp only [appendStringAux, hlt, if_true, hb, List.singleton_append]
      rw [ih t (by omega) (fun c hc => hs c (List.mem_cons_of_mem _ hc))]

/-! ## Objects: `Marshal` read back by `Unmarshal` -/

/-- A member with a string value, followed by a comma. -/
theorem parseMembers_comma (fuel : Nat) (k v : Bytes) (hk : Valid k = true) (hv : Valid v = true)
    (more : Bytes) (acc : List (Bytes × JValue)) :
    parseMembers (fuel + 2) (appendString k ++ 0x3A :: (appendString v ++ 0x2C :: more)) acc
      = parseMembers (fuel + 1) more (acc ++ [(k, JValue.string v)]) := by
  simp only [appendString, List.cons_append, List.append_assoc, List.singleton_append]
  rw [parseMembers]
  simp only [skipSpace, isSpace]
  simp [unquote_appendString k hk, unquote_appendString v hv, skipSpace, isSpace, parseValue]

/-- The last member, with a string value, followed by the closing brace. -/
theorem parseMembers_close (fuel : Nat) (k v : Bytes) (hk : Valid k = true) (hv : Valid v = true)
    (more : Bytes) (acc : List (Bytes × JValue)) :
    parseMembers (fuel + 2) (appendString k ++ 0x3A :: (appendString v ++ 0x7D :: more)) acc
      = some (JValue.object (acc ++ [(k, JValue.string v)]), more) := by
  simp only [appendString, List.cons_append, List.append_assoc, List.singleton_append]
  rw [parseMembers]
  simp [unquote_appendString k hk, unquote_appendString v hv, skipSpace, isSpace, parseValue]

/-- The JSON text of a `Note`, member by member. -/
theorem marshalNote_eq (n : Note) :
    marshalNote n = 0x7B :: (appendString (str "Id") ++ 0x3A :: (appendString n.Id ++ 0x2C ::
      (appendString (str "Title") ++ 0x3A :: (appendString n.Title ++ 0x2C ::
      (appendString (str "Body") ++ 0x3A :: (appendString n.Body ++ 0x7D :: [])))))) := by
  have e1 : str "\x7b\"Id\":" = 0x7B :: (appendString (str "Id") ++ [0x3A]) := by decide
  have e2 : str ",\"Title\":" = 0x2C :: (appendString (str "Title") ++ [0x3A]) := by decide
  have e3 : str ",\"Body\":" = 0x2C :: (appendString (str "Body") ++ [0x3A]) := by decide
  have e4 : str "\x7d" = [0x7D] := by decide
  simp only [marshalNote, e1, e2, e3, e4, List.cons_append, List.append_assoc,
    List.singleton_append, List.nil_append]

/-- An opening brace followed by a quoted key starts the member list. -/
theorem parseValue_object (fuel : Nat) (k xs : Bytes) :
    parseValue (fuel + 1) (0x7B :: (appendString k ++ xs))
      = parseMembers fuel (appendString k ++ xs) [] := by
  rw [parseValue]
  simp [skipSpace, isSpace, appendString]

/-- The scanner reads the JSON text of a `Note`, whatever follows it, as an object of three
string members. -/
theorem parseValue_marshalNote (n : Note) (h1 : Valid n.Id = true) (h2 : Valid n.Title = true)
    (h3 : Valid n.Body = true) (fuel : Nat) (rest : Bytes) :
    parseValue (fuel + 5) (marshalNote n ++ rest) = some (JValue.object
      [(str "Id", JValue.string n.Id), (str "Title", JValue.string n.Title),
        (str "Body", JValue.string n.Body)], rest) := by
  have hId : Valid (str "Id") = true := by decide
  have hTitle : Valid (str "Title") = true := by decide
  have hBody : Valid (str "Body") = true := by decide
  rw [marshalNote_eq]
  simp only [List.cons_append, List.append_assoc, List.nil_append]
  rw [parseValue_object, parseMembers_comma _ _ _ hId h1,
    parseMembers_comma _ _ _ hTitle h2, parseMembers_close _ _ _ hBody h3]
  rfl

/-- The scanner reads the JSON text of a `Note` as an object of three string members. -/
theorem parseJSON_marshalNote (n : Note) (h1 : Valid n.Id = true) (h2 : Valid n.Title = true)
    (h3 : Valid n.Body = true) :
    parseJSON (marshalNote n) = some (JValue.object [(str "Id", JValue.string n.Id),
      (str "Title", JValue.string n.Title), (str "Body", JValue.string n.Body)]) := by
  have hId : Valid (str "Id") = true := by decide
  have hTitle : Valid (str "Title") = true := by decide
  have hBody : Valid (str "Body") = true := by decide
  obtain ⟨m, hm⟩ : ∃ m, (marshalNote n).length = m + 6 := by
    refine ⟨(marshalNote n).length - 6, ?_⟩
    have : 6 ≤ (marshalNote n).length := by
      rw [marshalNote_eq]; simp [appendString]; omega
    omega
  unfold parseJSON
  rw [hm, marshalNote_eq, parseValue_object, parseMembers_comma _ _ _ hId h1,
    parseMembers_comma _ _ _ hTitle h2, parseMembers_close _ _ _ hBody h3]
  simp [skipSpace]

/-- Round trip of the stored form: `json.Unmarshal` of `json.Marshal(note)` gives the note back,
for a note of valid UTF-8 strings. -/
theorem unmarshalNote_marshalNote (n : Note) (h1 : Valid n.Id = true)
    (h2 : Valid n.Title = true) (h3 : Valid n.Body = true) :
    unmarshalNote (marshalNote n) = Except.ok (some n) := by
  have e1 : equalFold (str "Id") (str "Id") = true := by decide
  have e2 : equalFold (str "Title") (str "Id") = false := by decide
  have e3 : equalFold (str "Title") (str "Title") = true := by decide
  have e4 : equalFold (str "Body") (str "Id") = false := by decide
  have e5 : equalFold (str "Body") (str "Title") = false := by decide
  have e6 : equalFold (str "Body") (str "Body") = true := by decide
  simp [unmarshalNote, parseJSON_marshalNote n h1 h2 h3, Note.setMembers, Note.setMember,
    storeString, e1, e2, e3, e4, e5, e6]

/-- A reply line holding a `Note` has the member names `Id`, `Title`, `Body`. -/
theorem memberNames_marshalNote (n : Note) (h1 : Valid n.Id = true) (h2 : Valid n.Title = true)
    (h3 : Valid n.Body = true) :
    memberNames (encodeLine (marshalNote n)) = some [str "Id", str "Title", str "Body"] := by
  have hp := parseValue_marshalNote n h1 h2 h3 ((marshalNote n).length - 3) [0x0A]
  have hl : (encodeLine (marshalNote n)).length + 1 = (marshalNote n).length - 3 + 5 := by
    have : 6 ≤ (marshalNote n).length := by
      rw [marshalNote_eq]; simp [appendString]; omega
    simp only [encodeLine, List.length_append, List.length_singleton]
    omega
  unfold memberNames parseJSON
  rw [hl]
  unfold encodeLine
  rw [hp]
  simp [skipSpace, isSpace]

/-- One more member with a valid value keeps the members valid. -/
theorem membersValid_snoc (acc : List (Bytes × JValue)) (k : Bytes) (v : JValue)
    (ha : membersValid acc) (hv : stringValid v) : membersValid (acc ++ [(k, v)]) := by
  intro p hp
  rw [List.mem_append, List.mem_singleton] at hp
  rcases hp with hp | hp
  · exact ha p hp
  · subst hp; exact hv

/-- Every string the scanner hands over, as a value or as a member of the top object, is valid
UTF-8. -/
theorem parse_valid (fuel : Nat) :
    (∀ input v rest, parseValue fuel input = some (v, rest) → stringValid v ∧ objectValid v) ∧
    (∀ input acc v rest, parseMembers fuel input acc = some (v, rest) → membersValid acc →
      stringValid v ∧ objectValid v) ∧
    (∀ input acc v rest, parseElements fuel input acc = some (v, rest) →
      stringValid v ∧ objectValid v) := by
  induction fuel with
  | zero =>
    refine ⟨?_, ?_, ?_⟩
    · intro input v rest h; simp [parseValue] at h
    · intro input acc v rest h; simp [parseMembers] at h
    · intro input acc v rest h; simp [parseElements] at h
  | succ fuel ih =>
    obtain ⟨ihv, ihm, ihe⟩ := ih
    refine ⟨?_, ?_, ?_⟩
    · intro input v rest h
      rw [parseValue] at h
      split at h
      · simp at h
      · rename_i c t hst
        by_cases c1 : c = 0x7B
        · simp only [c1, if_true] at h
          split at h
          · simp only [Option.some.injEq, Prod.mk.injEq] at h
            rw [← h.1]
            refine ⟨fun s hs => (by cases hs), fun ms hms => ?_⟩
            cases hms
            intro p hp
            cases hp
          · exact ihm _ _ _ _ h (fun p hp => by cases hp)
        simp only [c1, if_false] at h
        by_cases c2 : c = 0x5B
        · simp only [c2, if_true] at h
          split at h
          · simp only [Option.some.injEq, Prod.mk.injEq] at h
            rw [← h.1]
            exact ⟨fun s hs => (by cases hs), fun ms hms => by cases hms⟩
          · exact ihe _ _ _ _ h
        simp only [c2, if_false] at h
        by_cases c3 : c = 0x22
        · simp only [c3, if_true] at h
          split at h
          · rename_i s rest1 hu
            simp only [Option.some.injEq, Prod.mk.injEq] at h
            rw [← h.1]
            refine ⟨fun s' hs => ?_, fun ms hms => by cases hms⟩
            cases hs
            exact unquote_valid _ _ _ hu
          · simp at h
        simp only [c3, if_false] at h
        have triv : ∀ (w : JValue) (o : Option Bytes),
            (∀ s, w ≠ JValue.string s) → (∀ ms, w ≠ JValue.object ms) →
            o.map (fun r => (w, r)) = some (v, rest) → stringValid v ∧ objectValid v := by
          intro w o hw1 hw2 ho
          cases o with
          | none => simp at ho
          | some r =>
            simp only [Option.map_some', Option.some.injEq, Prod.mk.injEq] at ho
            rw [← ho.1]
            exact ⟨fun s hs => absurd hs (hw1 s), fun ms hms => absurd hms (hw2 ms)⟩
        split_ifs at h
        · exact triv _ _ (fun s hs => (by cases hs)) (fun s hs => (by cases hs)) h
        · exact triv _ _ (fun s hs => (by cases hs)) (fun s hs => (by cases hs)) h
        · exact triv _ _ (fun s hs => (by cases hs)) (fun s hs => (by cases hs)) h
        · exact triv _ _ (fun s hs => (by cases hs)) (fun s hs => (by cases hs)) h
    · intro input acc v rest h hacc
      rw [parseMembers] at h
      split at h
      · rename_i t hst
        split at h
        · simp at h
        · rename_i key rest1 hu
          split at h
          · rename_i rest2 hsp
            split at h
            · simp at h
            · rename_i w rest3 hpv
              have hw := (ihv _ _ _ hpv).1
              split at h
              · exact ihm _ _ _ _ h (membersValid_snoc acc key w hacc hw)
              · simp only [Option.some.injEq, Prod.mk.injEq] at h
                rw [← h.1]
                refine ⟨fun s hs => (by cases hs), fun ms hms => ?_⟩
                cases hms
                exact membersValid_snoc acc key w hacc hw
              · simp at h
          · simp at h
      · simp at h
    · intro input acc v rest h
      rw [parseElements] at h
      split at h
      · simp at h
      · split at h
        · exact ihe _ _ _ _ h
        · simp only [Option.some.injEq, Prod.mk.injEq] at h
          rw [← h.1]
          exact ⟨fun s hs => (by cases hs), fun ms hms => by cases hms⟩
        · simp at h

/-- Storing a valid JSON string into a valid field keeps it valid. -/
theorem storeString_valid (v : JValue) (old : Bytes) (hv : stringValid v)
    (ho : Valid old = true) : Valid (storeString v old).1 = true := by
  cases v <;> simp only [storeString] <;> first | exact ho | exact hv _ rfl

/-- Decoding object members into a `NewNote` keeps its fields valid UTF-8. -/
theorem newNote_setMembers_valid : ∀ (ms : List (Bytes × JValue)) (n : NewNote),
    membersValid ms → Valid n.Title = true → Valid n.Body = true →
    Valid (NewNote.setMembers ms n).1.Title = true ∧
      Valid (NewNote.setMembers ms n).1.Body = true := by
  intro ms
  induction ms with
  | nil => intro n _ h1 h2; exact ⟨h1, h2⟩
  | cons p rest ih =>
    intro n hm h1 h2
    obtain ⟨key, v⟩ := p
    have hv : stringValid v := hm (key, v) (List.mem_cons_self _ _)
    have hrest : membersValid rest := fun q hq => hm q (List.mem_cons_of_mem _ hq)
    simp only [NewNote.setMembers]
    apply ih _ hrest
    · unfold NewNote.setMember
      split_ifs
      · exact storeString_valid v _ hv h1
      · exact h1
      · exact h1
    · unfold NewNote.setMember
      split_ifs
      · exact h2
      · exact storeString_valid v _ hv h2
      · exact h2

/-- The title and body that `createNote` decodes from a request are valid UTF-8. -/
theorem unmarshalNewNote_valid (data : Bytes) (n : NewNote)
    (h : unmarshalNewNote data = Except.ok n) :
    Valid n.Title = true ∧ Valid n.Body = true := by
  unfold unmarshalNewNote at h
  cases hp : parseJSON data with
  | none => simp [hp] at h
  | some v =>
    have hobj : objectValid v := by
      unfold parseJSON at hp
      split at hp
      · rename_i w rest hv
        split_ifs at hp
        · simp only [Option.some.injEq] at hp
          rw [← hp]
          exact ((parse_valid _).1 _ _ _ hv).2
      · simp at hp
    cases v with
    | object ms =>
      simp only [hp] at h
      split_ifs at h
      simp only [Except.ok.injEq] at h
      rw [← h]
      exact newNote_setMembers_valid ms _ (hobj ms rfl) rfl rfl
    | null =>
      simp only [hp, Except.ok.injEq] at h
      rw [← h]; exact ⟨rfl, rfl⟩
    | bool b => simp [hp] at h
    | number => simp [hp] at h
    | string s => simp [hp] at h
    | array items => simp [hp] at h

/-- Decoding object members into a `Note` keeps its fields valid UTF-8. -/
theorem note_setMembers_valid : ∀ (ms : List (Bytes × JValue)) (n : Note),
    membersValid ms → Valid n.Id = true → Valid n.Title = true → Valid n.Body = true →
    Valid (Note.setMembers ms n).1.Id = true ∧ Valid (Note.setMembers ms n).1.Title = true ∧
      Valid (Note.setMembers ms n).1.Body = true := by
  intro ms
  induction ms with
  | nil => intro n _ h1 h2 h3; exact ⟨h1, h2, h3⟩
  | cons p rest ih =>
    intro n hm h1 h2 h3
    obtain ⟨key, v⟩ := p
    have hv : stringValid v := hm (key, v) (List.mem_cons_self _ _)
    have hrest : membersValid rest := fun q hq => hm q (List.mem_cons_of_mem _ hq)
    simp only [Note.setMembers]
    apply ih _ hrest
    · unfold Note.setMember
      split_ifs
      · exact storeString_valid v _ hv h1
      · exact h1
      · exact h1
      · exact h1
    · unfold Note.setMember
      split_ifs
      · exact h2
      · exact storeString_valid v _ hv h2
      · exact h2
      · exact h2
    · unfold Note.setMember
      split_ifs
      · exact h3
      · exact h3
      · exact storeString_valid v _ hv h3
      · exact h3

/-- The fields of a note decoded from a stored value are valid UTF-8. -/
theorem unmarshalNote_valid (data : Bytes) (n : Note)
    (h : unmarshalNote data = Except.ok (some n)) :
    Valid n.Id = true ∧ Valid n.Title = true ∧ Valid n.Body = true := by
  unfold unmarshalNote at h
  cases hp : parseJSON data with
  | none => simp [hp] at h
  | some v =>
    have hobj : objectValid v := by
      unfold parseJSON at hp
      split at hp
      · rename_i w rest hv
        split_ifs at hp
        · simp only [Option.some.injEq] at hp
          rw [← hp]
          exact ((parse_valid _).1 _ _ _ hv).2
      · simp at hp
    cases v with
    | object ms =>
      simp only [hp] at h
      split_ifs at h
      simp only [Except.ok.injEq, Option.some.injEq] at h
      rw [← h]
      exact note_setMembers_valid ms _ (hobj ms rfl) rfl rfl rfl
    | null => simp [hp] at h
    | bool b => simp [hp] at h
    | number => simp [hp] at h
    | string s => simp [hp] at h
    | array items => simp [hp] at h

/-- A request body made by `titleRequest` from safe ASCII decodes to that title and an empty
body text. -/
theorem unmarshalNewNote_titleRequest (title : Bytes) (hs : ∀ b ∈ title, htmlSafeSet b = true) :
    unmarshalNewNote (titleRequest title) = Except.ok { Title := title, Body := [] } := by
  have hplain := appendStringAux_plain title.length title le_rfl hs
  have hvalid : Valid title = true := by
    apply Valid_of_ascii
    intro b hb
    have := hs b hb
    simp only [htmlSafeSet, Bool.and_eq_true, decide_eq_true_eq] at this
    exact this.1.2
  have e1 : str "\x7b\"Title\":\"" = 0x7B :: (appendString (str "Title") ++ [0x3A, 0x22]) := by
    decide
  have e2 : str "\",\"Body\":\"\"\x7d"
      = 0x22 :: 0x2C :: (appendString (str "Body") ++ 0x3A :: (appendString [] ++ [0x7D])) := by
    decide
  have hreq : titleRequest title = 0x7B :: (appendString (str "Title") ++ 0x3A ::
      (appendString title ++ 0x2C :: (appendString (str "Body") ++ 0x3A ::
        (appendString [] ++ 0x7D :: [])))) := by
    unfold titleRequest
    rw [e1, e2]
    simp only [appendString, hplain, List.cons_append, List.append_assoc, List.nil_append,
      List.singleton_append]
  have hTitle : Valid (str "Title") = true := by decide
  have hBody : Valid (str "Body") = true := by decide
  have hEmpty : Valid ([] : Bytes) = true := rfl
  obtain ⟨m, hm⟩ : ∃ m, (titleRequest title).length + 1 = m + 4 :=
    ⟨(titleRequest title).length - 3, by rw [hreq]; simp [appendString]; omega⟩
  have hparse : parseJSON (titleRequest title) = some (JValue.object
      [(str "Title", JValue.string title), (str "Body", JValue.string [])]) := by
    unfold parseJSON
    rw [hm, hreq, parseValue_object, parseMembers_comma _ _ _ hTitle hvalid,
      parseMembers_close _ _ _ hBody hEmpty]
    simp [skipSpace]
  have f1 : equalFold (str "Title") (str "Title") = true := by decide
  have f2 : equalFold (str "Body") (str "Title") = false := by decide
  have f3 : equalFold (str "Body") (str "Body") = true := by decide
  simp [unmarshalNewNote, hparse, NewNote.setMembers, NewNote.setMember, storeString, f1, f2, f3]

/-- An encoded note whose title is copied by the encoder is longer than the title. -/
theorem marshalNote_length (n : Note) (h : appendStringAux n.Title.length n.Title = n.Title) :
    n.Title.length ≤ (marshalNote n).length := by
  rw [marshalNote_eq]
  simp only [appendString, List.length_cons, List.length_append, h]
  omega

/-! ## Reply bodies as a client reads them -/

/-- The decoder reads the reply line of a note as the object of that note. -/
theorem parseJSON_noteLine (n : Note) (h1 : Valid n.Id = true) (h2 : Valid n.Title = true)
    (h3 : Valid n.Body = true) :
    parseJSON (encodeLine (marshalNote n)) = some (noteObject n) := by
  have hp := parseValue_marshalNote n h1 h2 h3 ((marshalNote n).length - 3) [0x0A]
  have hl : (encodeLine (marshalNote n)).length + 1 = (marshalNote n).length - 3 + 5 := by
    have : 6 ≤ (marshalNote n).length := by
      rw [marshalNote_eq]; simp [appendString]; omega
    simp only [encodeLine, List.length_append, List.length_singleton]
    omega
  unfold parseJSON
  rw [hl]
  unfold encodeLine
  rw [hp]
  simp [skipSpace, isSpace, noteObject]

/-- The decoder reads a stored note as the object of that note. -/
theorem parseJSON_noteBytes (n : Note) (h1 : Valid n.Id = true) (h2 : Valid n.Title = true)
    (h3 : Valid n.Body = true) :
    parseJSON (marshalNote n) = some (noteObject n) :=
  parseJSON_marshalNote n h1 h2 h3

/-- One entry of a listing, whatever follows it, reads as the value of that entry. -/
theorem parseValue_entry (p : Option Note)
    (hv : ∀ n, p = some n → Valid n.Id = true ∧ Valid n.Title = true ∧ Valid n.Body = true)
    (fuel : Nat) (tail : Bytes) :
    parseValue (fuel + 5) (marshalNotePtr p ++ tail) = some (entryValue p, tail) := by
  cases p with
  | none =>
    have e : marshalNotePtr none = [0x6E, 0x75, 0x6C, 0x6C] := by decide
    have e2 : str "ull" = [0x75, 0x6C, 0x6C] := by decide
    rw [e, parseValue]
    simp [skipSpace, isSpace, stripWord, e2, entryValue]
  | some n =>
    obtain ⟨h1, h2, h3⟩ := hv n rfl
    exact parseValue_marshalNote n h1 h2 h3 fuel tail

/-- An encoded entry is at least four bytes long and does not start with white space or a
closing bracket. -/
theorem marshalNotePtr_head (p : Option Note) :
    ∃ c rest, marshalNotePtr p = c :: rest ∧ isSpace c = false ∧ c ≠ 0x5D ∧ 3 ≤ rest.length := by
  cases p with
  | none => exact ⟨0x6E, [0x75, 0x6C, 0x6C], by decide, by decide, by decide, by decide⟩
  | some n =>
    refine ⟨0x7B, _, marshalNote_eq n, by decide, by decide, ?_⟩
    simp [appendString]
    omega

/-- The entries of a listing up to the closing bracket read as the values of the entries. -/
theorem parseElements_entries : ∀ (ps : List (Option Note)) (p : Option Note)
    (acc : List JValue) (tail : Bytes) (fuel : Nat),
    (∀ q ∈ p :: ps, ∀ n, q = some n →
      Valid n.Id = true ∧ Valid n.Title = true ∧ Valid n.Body = true) →
    parseElements (fuel + ps.length + 6)
        (joinElements ((p :: ps).map marshalNotePtr) ++ 0x5D :: tail) acc
      = some (JValue.array (acc ++ (p :: ps).map entryValue), tail)
  | [], p, acc, tail, fuel, hv => by
    simp only [List.map_cons, List.map_nil, joinElements, List.length_nil, Nat.add_zero]
    rw [parseElements, parseValue_entry p (hv p (List.mem_cons_self _ _))]
    simp [skipSpace, isSpace]
  | q :: ps, p, acc, tail, fuel, hv => by
    simp only [List.map_cons, joinElements, List.length_cons, List.cons_append,
      List.append_assoc]
    have hf : fuel + (ps.length + 1) + 6 = (fuel + ps.length + 2) + 5 := by omega
    rw [hf, parseElements, parseValue_entry p (hv p (List.mem_cons_self _ _))]
    have ih := parseElements_entries ps q (acc ++ [entryValue p]) tail fuel
      (fun r hr => hv r (List.mem_cons_of_mem _ hr))
    simp only [List.map_cons] at ih
    have hf2 : fuel + ps.length + 2 + 4 = fuel + ps.length + 6 := by omega
    simp only [skipSpace, isSpace, hf2]
    simp [ih]

/-- A joined run of entries starts like its first entry and is longer than the number of its
entries plus three. -/
theorem joinElements_head : ∀ (ps : List (Option Note)) (p : Option Note),
    ∃ c rest, joinElements ((p :: ps).map marshalNotePtr) = c :: rest ∧ isSpace c = false
      ∧ c ≠ 0x5D ∧ ps.length + 3 ≤ rest.length
  | [], p => by
    obtain ⟨c, rest, h1, h2, h3, h4⟩ := marshalNotePtr_head p
    exact ⟨c, rest, by simp [joinElements, h1], h2, h3, by simpa using h4⟩
  | q :: ps, p => by
    obtain ⟨c, rest, h1, h2, h3, h4⟩ := marshalNotePtr_head p
    obtain ⟨c', rest', g1, -, -, g4⟩ := joinElements_head ps q
    refine ⟨c, rest ++ 0x2C :: joinElements ((q :: ps).map marshalNotePtr), ?_, h2, h3, ?_⟩
    · simp only [List.map_cons, joinElements, h1, List.cons_append]
    · rw [g1]
      simp only [List.length_append, List.length_cons]
      omega

/-- An opening bracket followed by an entry starts the list of elements. -/
theorem parseValue_array (fuel c : Nat) (r : Bytes) (h2 : isSpace c = false) (h3 : c ≠ 0x5D) :
    parseValue (fuel + 1) (0x5B :: c :: r) = parseElements fuel (c :: r) [] := by
  rw [parseValue]
  have hs : skipSpace (c :: r) = c :: r := by simp [skipSpace, h2]
  simp only [skipSpace, isSpace]
  simp only [Nat.reduceBEq, Bool.or_self, Bool.false_eq_true, if_false, Nat.reduceEqDiff,
    if_true]
  rw [hs]
  split
  · rename_i r1 heq
    simp only [List.cons.injEq] at heq
    exact absurd heq.1 h3
  · rfl

/-- The decoder reads the reply line of a listing as the array of its entries. -/
theorem parseJSON_notesLine (ps : List (Option Note))
    (hv : ∀ q ∈ ps, ∀ n, q = some n →
      Valid n.Id = true ∧ Valid n.Title = true ∧ Valid n.Body = true) :
    parseJSON (encodeLine (marshalNotes ps)) = some (JValue.array (ps.map entryValue)) := by
  cases ps with
  | nil => rfl
  | cons p ps =>
    obtain ⟨c, rest, h1, h2, h3, h4⟩ := joinElements_head ps p
    have hlen : (encodeLine (marshalNotes (p :: ps))).length
        = (rest.length - ps.length - 2) + ps.length + 6 := by
      simp only [encodeLine, marshalNotes, List.length_append, List.length_cons, h1,
        List.length_nil]
      omega
    have hentries := parseElements_entries ps p [] [0x0A] (rest.length - ps.length - 2) hv
    unfold parseJSON
    rw [hlen]
    simp only [encodeLine, marshalNotes, List.cons_append, List.append_assoc,
      List.singleton_append, List.nil_append] at hentries ⊢
    rw [h1] at hentries ⊢
    simp only [List.cons_append] at hentries ⊢
    rw [parseValue_array _ c _ h2 h3, hentries]
    simp [skipSpace, isSpace]

/-- The decoder reads the reply line of `getNote` as the value of the stored entry. -/
theorem parseJSON_entryLine (p : Option Note)
    (hv : ∀ n, p = some n → Valid n.Id = true ∧ Valid n.Title = true ∧ Valid n.Body = true) :
    parseJSON (encodeLine (marshalNotePtr p)) = some (entryValue p) := by
  cases p with
  | none => rfl
  | some n =>
    obtain ⟨h1, h2, h3⟩ := hv n rfl
    exact parseJSON_noteLine n h1 h2 h3

/-! ## The id format -/

/-- The digits of `decimal` are ASCII digits. -/
theorem decimal_digits (fuel : Nat) : ∀ (u : Nat), ∀ b ∈ decimal fuel u, isDigit b = true := by
  induction fuel with
  | zero => intro u b hb; simp [decimal] at hb
  | succ fuel ih =>
    intro u b hb
    unfold decimal at hb
    split_ifs at hb with h
    · simp only [List.mem_singleton] at hb
      simp only [isDigit, Bool.and_eq_true, decide_eq_true_eq]; omega
    · rw [List.mem_append, List.mem_singleton] at hb
      rcases hb with hb | hb
      · exact ih _ b hb
      · simp only [isDigit, Bool.and_eq_true, decide_eq_true_eq]; omega

/-- The bytes `appendInt` writes are ASCII. -/
theorem appendInt_ascii (x : Int) (width : Nat) : ∀ b ∈ appendInt x width, b < 0x80 := by
  intro b hb
  unfold appendInt at hb
  simp only at hb
  have hsign : ∀ c ∈ (if x < 0 then [0x2D] else ([] : Bytes)), c < 0x80 := by
    intro c hc; split_ifs at hc <;> simp at hc; omega
  generalize (if x < 0 then [0x2D] else ([] : Bytes)) = sign at hb hsign
  split_ifs at hb with h1 h2
  · rw [List.mem_append] at hb
    rcases hb with hb | hb
    · exact hsign b hb
    · simp only [List.mem_cons, List.mem_singleton, List.not_mem_nil, or_false] at hb
      omega
  · rw [List.mem_append] at hb
    rcases hb with hb | hb
    · exact hsign b hb
    · simp only [List.mem_cons, List.mem_singleton, List.not_mem_nil, or_false] at hb
      omega
  · rw [List.mem_append, List.mem_append] at hb
    rcases hb with (hb | hb) | hb
    · exact hsign b hb
    · rw [List.mem_replicate] at hb; omega
    · have := decimal_digits _ _ b hb
      simp only [isDigit, Bool.and_eq_true, decide_eq_true_eq] at this; omega

/-- An id made by `Format` is ASCII, hence valid UTF-8, whatever the clock shows. -/
theorem Valid_Format (t : Time) : Valid t.Format = true := by
  apply Valid_of_ascii
  intro b hb
  unfold Time.Format at hb
  simp only [List.mem_append] at hb
  rcases hb with ((((hb | hb) | hb) | hb) | hb) | hb <;> exact appendInt_ascii _ _ b hb

/-- With a calendar clock in a year of four digits the id is fourteen decimal digits. -/
theorem Format_civil (t : Time) (h : t.civil) :
    t.Format.length = 14 ∧ ∀ b ∈ t.Format, isDigit b = true := by
  obtain ⟨h0, h1, h2, h3, h4, h5, h6, h7, h8⟩ := h
  obtain ⟨y, hy⟩ : ∃ y : Nat, t.year = y := ⟨t.year.toNat, by omega⟩
  have hy' : y < 10000 := by omega
  have e1 : appendInt t.year 4 = [0x30 + y / 1000, 0x30 + y / 100 % 10, 0x30 + y / 10 % 10,
      0x30 + y % 10] := by
    have : ¬ ((y : Int) < 0) := by omega
    simp [appendInt, hy, hy', this]
  have e2 : ∀ n : Nat, n < 100 → appendInt (n : Int) 2 = [0x30 + n / 10, 0x30 + n % 10] := by
    intro n hn
    have : ¬ ((n : Int) < 0) := by omega
    simp [appendInt, hn, this]
  unfold Time.Format
  rw [e1, e2 _ (by omega), e2 _ (by omega), e2 _ (by omega), e2 _ (by omega), e2 _ (by omega)]
  refine ⟨rfl, ?_⟩
  intro b hb
  simp only [List.cons_append, List.nil_append, List.mem_cons, List.mem_singleton,
    List.not_mem_nil, or_false] at hb
  simp only [isDigit, Bool.and_eq_true, decide_eq_true_eq]
  omega

/-- With a calendar clock in a year of four digits the id is the pattern `YYYYMMDDHHMMSS`. -/
theorem Format_timestamp14 (t : Time) (h : t.civil) : t.Format = timestamp14 t := by
  obtain ⟨h0, h1, h2, h3, h4, h5, h6, h7, h8⟩ := h
  obtain ⟨y, hy⟩ : ∃ y : Nat, t.year = y := ⟨t.year.toNat, by omega⟩
  have hy' : y < 10000 := by omega
  have e1 : appendInt t.year 4 = digits4 t.year.toNat := by
    have : ¬ ((y : Int) < 0) := by omega
    simp [appendInt, digits4, hy, hy', this]
  have e2 : ∀ n : Nat, n < 100 → appendInt (n : Int) 2 = digits2 n := by
    intro n hn
    have : ¬ ((n : Int) < 0) := by omega
    simp [appendInt, digits2, hn, this]
  unfold Time.Format timestamp14
  rw [e1, e2 _ (by omega), e2 _ (by omega), e2 _ (by omega), e2 _ (by omega), e2 _ (by omega)]

/-! ## The bucket -/

/-- No key is below itself. -/
theorem keyLt_irrefl : ∀ (a : Bytes), keyLt a a = false
  | [] => rfl
  | x :: t => by simp [keyLt, keyLt_irrefl t]

/-- The key order is transitive. -/
theorem keyLt_trans : ∀ (a b c : Bytes), keyLt a b = true → keyLt b c = true → keyLt a c = true
  | [], [], _, h, _ => by simp [keyLt] at h
  | [], _ :: _, [], _, h => by simp [keyLt] at h
  | [], _ :: _, _ :: _, _, _ => by simp [keyLt]
  | _ :: _, [], _, h, _ => by simp [keyLt] at h
  | _ :: _, _ :: _, [], _, h => by simp [keyLt] at h
  | x :: a, y :: b, z :: c, h1, h2 => by
    simp only [keyLt, Bool.or_eq_true, decide_eq_true_eq, Bool.and_eq_true, beq_iff_eq] at h1 h2 ⊢
    rcases h1 with h1 | ⟨e1, h1⟩ <;> rcases h2 with h2 | ⟨e2, h2⟩
    · left; omega
    · left; omega
    · left; omega
    · right; exact ⟨by omega, keyLt_trans a b c h1 h2⟩

/-- Two different keys are ordered one way or the other. -/
theorem keyLt_total : ∀ (a b : Bytes), keyLt a b = false → a ≠ b → keyLt b a = true
  | [], [], _, h => absurd rfl h
  | [], _ :: _, h, _ => by simp [keyLt] at h
  | _ :: _, [], _, _ => by simp [keyLt]
  | x :: a, y :: b, h1, h2 => by
    simp only [keyLt, Bool.or_eq_false_iff, decide_eq_false_iff_not, Bool.and_eq_false_imp,
      beq_iff_eq] at h1
    simp only [keyLt, Bool.or_eq_true, decide_eq_true_eq, Bool.and_eq_true, beq_iff_eq]
    by_cases e : x = y
    · right
      refine ⟨e.symm, keyLt_total a b (h1.2 e) ?_⟩
      intro hab; exact h2 (by rw [e, hab])
    · left; omega

/-- A key below another differs from it. -/
theorem keyLt_ne (a b : Bytes) (h : keyLt a b = true) : a ≠ b := by
  intro e; subst e; rw [keyLt_irrefl] at h; cases h

/-- Reading a key right after writing it gives the value written. -/
theorem getEntry_putEntry (k v : Bytes) : ∀ (es : List (Bytes × Bytes)),
    getEntry k (putEntry k v es) = some v
  | [] => by simp [putEntry, getEntry, keyLt_irrefl]
  | (k1, v1) :: rest => by
    unfold putEntry
    split_ifs with h1 h2
    · simp [getEntry, h1, getEntry_putEntry k v rest]
    · simp [getEntry, keyLt_irrefl]
    · simp [getEntry, keyLt_irrefl]

/-- A pair of the bucket after a write is the pair written or was there before. -/
theorem mem_putEntry (k v : Bytes) (p : Bytes × Bytes) : ∀ (es : List (Bytes × Bytes)),
    p ∈ putEntry k v es → p = (k, v) ∨ p ∈ es
  | [] => by simp [putEntry]
  | (k1, v1) :: rest => by
    unfold putEntry
    split_ifs with h1 h2
    · intro h
      rw [List.mem_cons] at h
      rcases h with h | h
      · exact Or.inr (by rw [h]; exact List.mem_cons_self _ _)
      · rcases mem_putEntry k v p rest h with h | h
        · exact Or.inl h
        · exact Or.inr (List.mem_cons_of_mem _ h)
    · intro h
      rw [List.mem_cons] at h
      rcases h with h | h
      · exact Or.inl h
      · exact Or.inr (List.mem_cons_of_mem _ h)
    · intro h
      rw [List.mem_cons] at h
      rcases h with h | h
      · exact Or.inl h
      · exact Or.inr h

/-- A pair of the bucket after a removal was there before. -/
theorem mem_delEntry (k : Bytes) (p : Bytes × Bytes) : ∀ (es : List (Bytes × Bytes)),
    p ∈ delEntry k es → p ∈ es
  | [] => by simp [delEntry]
  | (k1, v1) :: rest => by
    unfold delEntry
    split_ifs with h1 h2
    · intro h
      rw [List.mem_cons] at h
      rcases h with h | h
      · rw [h]; exact List.mem_cons_self _ _
      · exact List.mem_cons_of_mem _ (mem_delEntry k p rest h)
    · intro h; exact List.mem_cons_of_mem _ h
    · intro h; exact h

/-- After a write the key is among the keys. -/
theorem mem_keys_putEntry (k v : Bytes) : ∀ (es : List (Bytes × Bytes)),
    (k, v) ∈ putEntry k v es
  | [] => by simp [putEntry]
  | (k1, w) :: rest => by
    unfold putEntry
    split_ifs with h1 h2
    · exact List.mem_cons_of_mem _ (mem_keys_putEntry k v rest)
    · exact List.mem_cons_self _ _
    · exact List.mem_cons_self _ _

/-- Removing a key that is not in the bucket changes nothing. -/
theorem delEntry_absent (k : Bytes) : ∀ (es : List (Bytes × Bytes)),
    k ∉ es.map Prod.fst → delEntry k es = es
  | [], _ => rfl
  | (k1, v1) :: rest, h => by
    simp only [List.map_cons, List.mem_cons, not_or] at h
    unfold delEntry
    split_ifs with h1 h2
    · rw [delEntry_absent k rest h.2]
    · exact absurd h2.symm h.1
    · rfl

/-- A key that is not in the bucket has no value. -/
theorem getEntry_absent (k : Bytes) : ∀ (es : List (Bytes × Bytes)),
    k ∉ es.map Prod.fst → getEntry k es = none
  | [], _ => rfl
  | (k1, v1) :: rest, h => by
    simp only [List.map_cons, List.mem_cons, not_or] at h
    unfold getEntry
    split_ifs with h1 h2
    · exact getEntry_absent k rest h.2
    · exact absurd h2.symm h.1
    · rfl

/-- Writing the same key twice leaves what the second write alone would leave. -/
theorem putEntry_putEntry (k v1 v2 : Bytes) : ∀ (es : List (Bytes × Bytes)),
    putEntry k v2 (putEntry k v1 es) = putEntry k v2 es
  | [] => by simp [putEntry, keyLt_irrefl]
  | (k1, w) :: rest => by
    by_cases h1 : keyLt k1 k = true
    · simp [putEntry, h1, putEntry_putEntry k v1 v2 rest]
    · by_cases h2 : k1 = k
      · subst h2; simp [putEntry, keyLt_irrefl]
      · simp [putEntry, h1, h2, keyLt_irrefl]

/-- Writing a key keeps the keys of a bucket strictly ascending. -/
theorem putEntry_ordered (k v : Bytes) : ∀ (es : List (Bytes × Bytes)),
    es.Pairwise (fun x y => keyLt x.1 y.1 = true) →
    (putEntry k v es).Pairwise (fun x y => keyLt x.1 y.1 = true)
  | [], _ => by simp [putEntry]
  | (k1, v1) :: rest, h => by
    rw [List.pairwise_cons] at h
    unfold putEntry
    split_ifs with h1 h2
    · rw [List.pairwise_cons]
      refine ⟨?_, putEntry_ordered k v rest h.2⟩
      intro p hp
      rcases mem_putEntry k v p rest hp with hp | hp
      · rw [hp]; exact h1
      · exact h.1 p hp
    · rw [List.pairwise_cons]
      exact ⟨fun p hp => by rw [← h2]; exact h.1 p hp, h.2⟩
    · have hk : keyLt k k1 = true :=
        keyLt_total k1 k (by simpa using h1) h2
      rw [List.pairwise_cons]
      refine ⟨?_, List.pairwise_cons.mpr h⟩
      intro p hp
      rw [List.mem_cons] at hp
      rcases hp with hp | hp
      · rw [hp]; exact hk
      · exact keyLt_trans _ _ _ hk (h.1 p hp)

/-- Removing a key keeps the keys of a bucket strictly ascending. -/
theorem delEntry_ordered (k : Bytes) : ∀ (es : List (Bytes × Bytes)),
    es.Pairwise (fun x y => keyLt x.1 y.1 = true) →
    (delEntry k es).Pairwise (fun x y => keyLt x.1 y.1 = true)
  | [], _ => by simp [delEntry]
  | (k1, v1) :: rest, h => by
    rw [List.pairwise_cons] at h
    unfold delEntry
    split_ifs with h1 h2
    · rw [List.pairwise_cons]
      exact ⟨fun p hp => h.1 p (mem_delEntry k p rest hp), delEntry_ordered k rest h.2⟩
    · exact h.2
    · exact List.pairwise_cons.mpr h

/-- In a bucket with ascending keys a key that is present sits at one place: reading finds its
value there and removing takes out that pair and no other. -/
theorem ordered_split (k : Bytes) : ∀ (es : List (Bytes × Bytes)),
    es.Pairwise (fun x y => keyLt x.1 y.1 = true) → k ∈ es.map Prod.fst →
    ∃ pre v post, es = pre ++ (k, v) :: post ∧ getEntry k es = some v
      ∧ delEntry k es = pre ++ post ∧ k ∉ (pre ++ post).map Prod.fst
  | [], _, h => by simp at h
  | (k1, v1) :: rest, ho, hk => by
    rw [List.pairwise_cons] at ho
    by_cases e : k1 = k
    · subst e
      refine ⟨[], v1, rest, rfl, ?_, ?_, ?_⟩
      · simp [getEntry, keyLt_irrefl]
      · simp [delEntry, keyLt_irrefl]
      · simp only [List.nil_append, List.mem_map, not_exists, not_and]
        intro p hp hpk
        have := ho.1 p hp
        rw [hpk, keyLt_irrefl] at this
        cases this
    · have hk' : k ∈ rest.map Prod.fst := by
        simp only [List.map_cons, List.mem_cons] at hk
        rcases hk with hk | hk
        · exact absurd hk.symm e
        · exact hk
      obtain ⟨p, hp, hpk⟩ := List.mem_map.mp hk'
      have hlt : keyLt k1 k = true := by rw [← hpk]; exact ho.1 p hp
      obtain ⟨pre, v, post, h1, h2, h3, h4⟩ := ordered_split k rest ho.2 hk'
      refine ⟨(k1, v1) :: pre, v, post, by rw [h1]; rfl, ?_, ?_, ?_⟩
      · simp [getEntry, hlt, h2]
      · simp [delEntry, hlt, h3]
      · simp only [List.cons_append, List.map_cons, List.mem_cons, not_or]
        exact ⟨fun h => e h.symm, h4⟩

/-- After a key is removed from a bucket with ascending keys it is not among the keys. -/
theorem not_mem_keys_delEntry (k : Bytes) (es : List (Bytes × Bytes))
    (ho : es.Pairwise (fun x y => keyLt x.1 y.1 = true)) : k ∉ (delEntry k es).map Prod.fst := by
  by_cases hk : k ∈ es.map Prod.fst
  · obtain ⟨pre, v, post, -, -, h3, h4⟩ := ordered_split k es ho hk
    rw [h3]; exact h4
  · rw [delEntry_absent k es hk]; exact hk

/-! ## The handlers -/

/-- What `createNote` does on a file with both buckets, for a request body that decodes. -/
theorem createNote_ready (bucket : Bucket) (now : Time) (reqBody : Bytes) (newNote : NewNote)
    (h : unmarshalNewNote reqBody = Except.ok newNote) :
    createNote (DBFile.ready bucket) now reqBody =
      if now.Format.length = 0 ∨ MaxKeySize < now.Format.length ∨ MaxValueSize <
          (marshalNote { Id := now.Format, Title := newNote.Title, Body := newNote.Body }).length
      then (Outcome.error StatusInternalServerError (ErrorText.text "can't create note"),
        DBFile.ready bucket)
      else (Outcome.json (encodeLine (marshalNote
          { Id := now.Format, Title := newNote.Title, Body := newNote.Body })),
        DBFile.ready { entries := putEntry now.Format (marshalNote
          { Id := now.Format, Title := newNote.Title, Body := newNote.Body }) bucket.entries }) := by
  simp only [createNote, h, Bucket.Put]
  split_ifs <;> first | rfl | (exfalso; simp_all; omega) | simp_all

/-- A `createNote` call that replies with JSON decoded its request, stored the encoded note under
its id and replied with that note. -/
theorem createNote_json (db : DBFile) (now : Time) (reqBody reply : Bytes) (db1 : DBFile)
    (h : createNote db now reqBody = (Outcome.json reply, db1)) :
    ∃ (bucket : Bucket) (note : Note), db = DBFile.ready bucket ∧ noteOf now reqBody = some note
      ∧ reply = encodeLine (marshalNote note)
      ∧ db1 = DBFile.ready { entries := putEntry note.Id (marshalNote note) bucket.entries } := by
  cases hreq : unmarshalNewNote reqBody with
  | error e => simp [createNote, hreq] at h
  | ok newNote =>
    cases db with
    | unopenable => simp [createNote, hreq] at h
    | noRoot => simp [createNote, hreq] at h
    | noNotes => simp [createNote, hreq] at h
    | ready bucket =>
      rw [createNote_ready bucket now reqBody newNote hreq] at h
      split_ifs at h
      · simp at h
      · simp only [Prod.mk.injEq, Outcome.json.injEq, DBFile.ready.injEq] at h
        exact ⟨bucket, _, rfl, by simp [noteOf, hreq], h.1.symm, by rw [← h.2]⟩

/-- A `createNote` reply with status 200 is a JSON reply. -/
theorem createNote_status (db : DBFile) (now : Time) (reqBody : Bytes)
    (h : (createNote db now reqBody).1.status = some 200) :
    ∃ body, (createNote db now reqBody).1 = Outcome.json body := by
  unfold createNote at h ⊢
  cases hreq : unmarshalNewNote reqBody with
  | error e => simp [hreq, Outcome.status, StatusInternalServerError] at h
  | ok newNote =>
    simp only [hreq] at h ⊢
    cases db with
    | unopenable => simp [Outcome.status] at h
    | noRoot => simp [Outcome.status] at h
    | noNotes => simp [Outcome.status] at h
    | ready bucket =>
      simp only at h ⊢
      cases hput : bucket.Put now.Format (marshalNote
          { Id := now.Format, Title := newNote.Title, Body := newNote.Body }) with
      | error e => simp [hput, Outcome.status, StatusInternalServerError] at h
      | ok b1 => exact ⟨_, rfl⟩

/-- The fields of the note built for a request are valid UTF-8. -/
theorem noteOf_valid (now : Time) (reqBody : Bytes) (note : Note)
    (h : noteOf now reqBody = some note) :
    Valid note.Id = true ∧ Valid note.Title = true ∧ Valid note.Body = true := by
  unfold noteOf at h
  cases hreq : unmarshalNewNote reqBody with
  | error e => simp [hreq] at h
  | ok newNote =>
    simp only [hreq, Option.some.injEq] at h
    have hv := unmarshalNewNote_valid reqBody newNote hreq
    rw [← h]
    exact ⟨Valid_Format now, hv.1, hv.2⟩

/-- Reading a note right after it was written under its id gives it back. -/
theorem getNote_putEntry (bucket : Bucket) (note : Note) (h1 : Valid note.Id = true)
    (h2 : Valid note.Title = true) (h3 : Valid note.Body = true) :
    getNote (DBFile.ready { entries := putEntry note.Id (marshalNote note) bucket.entries })
      note.Id = Outcome.json (encodeLine (marshalNote note)) := by
  simp [getNote, Bucket.Get, getEntry_putEntry, unmarshalNote_marshalNote note h1 h2 h3,
    marshalNotePtr]

/-- What `forEachNote` returns on success: the notes so far, then one decoded value of the
bucket after the other. -/
theorem forEachNote_ok : ∀ (es : List (Bytes × Bytes)) (acc notes : List (Option Note)),
    forEachNote es acc = Except.ok notes →
    ∃ ds, notes = acc ++ ds ∧ List.Forall₂ (fun e d => unmarshalNote e.2 = Except.ok d) es ds
  | [], acc, notes, h => by
    simp only [forEachNote, Except.ok.injEq] at h
    exact ⟨[], by simp [h], List.Forall₂.nil⟩
  | (k, v) :: rest, acc, notes, h => by
    simp only [forEachNote] at h
    cases hv : unmarshalNote v with
    | error e => simp [hv] at h
    | ok d =>
      simp only [hv] at h
      obtain ⟨ds, h1, h2⟩ := forEachNote_ok rest _ notes h
      exact ⟨d :: ds, by simp [h1], List.Forall₂.cons hv h2⟩

/-- When every value of the bucket decodes, `forEachNote` returns the decoded values in order. -/
theorem forEachNote_of_forall₂ : ∀ (es : List (Bytes × Bytes)) (ds acc : List (Option Note)),
    List.Forall₂ (fun e d => unmarshalNote e.2 = Except.ok d) es ds →
    forEachNote es acc = Except.ok (acc ++ ds)
  | [], _, acc, h => by cases h; simp [forEachNote]
  | (k, v) :: rest, _, acc, h => by
    cases h with
    | cons hv hrest =>
      simp only [forEachNote, hv]
      rw [forEachNote_of_forall₂ rest _ _ hrest]
      simp

/-- Decoded values of a bucket split where the bucket splits. -/
theorem forall₂_split {α β : Type} (R : α → β → Prop) : ∀ (pre : List α) (e : α) (post : List α)
    (ds : List β), List.Forall₂ R (pre ++ e :: post) ds →
    ∃ dpre d dpost, ds = dpre ++ d :: dpost ∧ List.Forall₂ R pre dpre ∧ R e d
      ∧ List.Forall₂ R post dpost
  | [], e, post, ds, h => by
    cases h with
    | cons h1 h2 => exact ⟨[], _, _, rfl, List.Forall₂.nil, h1, h2⟩
  | a :: pre, e, post, ds, h => by
    cases h with
    | cons h1 h2 =>
      obtain ⟨dpre, d, dpost, e1, e2, e3, e4⟩ := forall₂_split R pre e post _ h2
      exact ⟨_ :: dpre, d, dpost, by rw [e1]; rfl, List.Forall₂.cons h1 e2, e3, e4⟩

/-- Decoded values of two runs of pairs, one after the other. -/
theorem forall₂_append {α β : Type} (R : α → β → Prop) : ∀ (a : List α) (b : List α)
    (da db : List β), List.Forall₂ R a da → List.Forall₂ R b db →
    List.Forall₂ R (a ++ b) (da ++ db)
  | [], _, _, _, h1, h2 => by cases h1; exact h2
  | _ :: a, b, _, db, h1, h2 => by
    cases h1 with
    | cons h h1 => exact List.Forall₂.cons h (forall₂_append R a b _ db h1 h2)

/-- The listing of a bucket of valid notes: the notes in bucket order. -/
theorem getNotes_entriesOf (notes : List Note)
    (hv : ∀ n ∈ notes, Valid n.Id = true ∧ Valid n.Title = true ∧ Valid n.Body = true) :
    getNotes (DBFile.ready { entries := entriesOf notes })
      = Outcome.json (encodeLine (marshalNotes (notes.map some))) := by
  have hf : List.Forall₂ (fun e d => unmarshalNote e.2 = Except.ok d) (entriesOf notes)
      (notes.map some) := by
    induction notes with
    | nil => exact List.Forall₂.nil
    | cons n rest ih =>
      have hn := hv n (List.mem_cons_self _ _)
      exact List.Forall₂.cons (unmarshalNote_marshalNote n hn.1 hn.2.1 hn.2.2)
        (ih (fun m hm => hv m (List.mem_cons_of_mem _ hm)))
  simp only [getNotes, forEachNote_of_forall₂ _ _ _ hf, List.nil_append]

/-- Writing a note under a new id into a bucket of notes gives a bucket of notes: the old ones
and the new one. -/
theorem putEntry_entriesOf (n : Note) : ∀ (notes : List Note), n.Id ∉ notes.map Note.Id →
    ∃ notes1, putEntry n.Id (marshalNote n) (entriesOf notes) = entriesOf notes1
      ∧ notes1.Perm (n :: notes)
  | [], _ => ⟨[n], rfl, List.Perm.refl _⟩
  | m :: rest, h => by
    simp only [List.map_cons, List.mem_cons, not_or] at h
    by_cases h1 : keyLt m.Id n.Id = true
    · obtain ⟨r1, e1, e2⟩ := putEntry_entriesOf n rest h.2
      refine ⟨m :: r1, ?_, (e2.cons m).trans (List.Perm.swap _ _ _)⟩
      simp only [entriesOf, List.map_cons, putEntry, h1, if_true]
      rw [← entriesOf, e1]; rfl
    · refine ⟨n :: m :: rest, ?_, List.Perm.refl _⟩
      have h2 : ¬ m.Id = n.Id := fun e => h.1 e.symm
      simp [entriesOf, putEntry, h1, h2]

/-- A run of successful `createNote` calls with new, distinct ids on a bucket of valid notes in
key order leaves a bucket of valid notes in key order: the old notes and the created ones. -/
theorem createAll_entriesOf : ∀ (reqs : List (Time × Bytes)) (notes : List Note),
    (∀ n ∈ notes, Valid n.Id = true ∧ Valid n.Title = true ∧ Valid n.Body = true) →
    (entriesOf notes).Pairwise (fun x y => keyLt x.1 y.1 = true) →
    (∀ o ∈ (createAll (DBFile.ready { entries := entriesOf notes }) reqs).1,
      o.status = some 200) →
    (reqs.map (fun r => r.1.Format)).Nodup →
    (∀ r ∈ reqs, r.1.Format ∉ notes.map Note.Id) →
    ∃ listed : List Note,
      (createAll (DBFile.ready { entries := entriesOf notes }) reqs).2
          = DBFile.ready { entries := entriesOf listed }
        ∧ listed.Perm (notes ++ reqs.filterMap (fun r => noteOf r.1 r.2))
        ∧ (∀ n ∈ listed, Valid n.Id = true ∧ Valid n.Title = true ∧ Valid n.Body = true)
        ∧ (entriesOf listed).Pairwise (fun x y => keyLt x.1 y.1 = true)
        ∧ listed.length = notes.length + reqs.length
  | [], notes, hv, ho, _, _, _ => ⟨notes, rfl, by simp, hv, ho, by simp⟩
  | (now, reqBody) :: rest, notes, hv, ho, hok, hnd, hnew => by
    simp only [createAll] at hok ⊢
    obtain ⟨body, hbody⟩ := createNote_status _ now reqBody (hok _ (List.mem_cons_self _ _))
    obtain ⟨b, note, hb, hn, -, hd⟩ := createNote_json _ now reqBody body
      (createNote (DBFile.ready { entries := entriesOf notes }) now reqBody).2
      (by rw [← hbody])
    simp only [DBFile.ready.injEq] at hb
    subst hb
    have hid : note.Id = now.Format := by
      unfold noteOf at hn
      cases hreq : unmarshalNewNote reqBody with
      | error e => simp [hreq] at hn
      | ok nn => simp only [hreq, Option.some.injEq] at hn; rw [← hn]
    have hfresh : note.Id ∉ notes.map Note.Id := by
      rw [hid]; exact hnew (now, reqBody) (List.mem_cons_self _ _)
    obtain ⟨notes1, e1, e2⟩ := putEntry_entriesOf note notes hfresh
    simp only at hd
    rw [e1] at hd
    have hv1 : ∀ n ∈ notes1, Valid n.Id = true ∧ Valid n.Title = true ∧ Valid n.Body = true := by
      intro n hn1
      have := e2.mem_iff.mp hn1
      rw [List.mem_cons] at this
      rcases this with h | h
      · rw [h]; exact noteOf_valid now reqBody note hn
      · exact hv n h
    have ho1 : (entriesOf notes1).Pairwise (fun x y => keyLt x.1 y.1 = true) := by
      rw [← e1]; exact putEntry_ordered _ _ _ ho
    simp only [List.map_cons, List.nodup_cons] at hnd
    have hnew1 : ∀ r ∈ rest, r.1.Format ∉ notes1.map Note.Id := by
      intro r hr hmem
      obtain ⟨m, hm, hmid⟩ := List.mem_map.mp hmem
      have := e2.mem_iff.mp hm
      rw [List.mem_cons] at this
      rcases this with h | h
      · apply hnd.1
        rw [← hid, ← h, hmid]
        exact List.mem_map.mpr ⟨r, hr, rfl⟩
      · exact hnew r (List.mem_cons_of_mem _ hr) (List.mem_map.mpr ⟨m, h, hmid⟩)
    rw [hd] at hok ⊢
    obtain ⟨listed, f1, f2, f3, f4, f5⟩ := createAll_entriesOf rest notes1 hv1 ho1
      (fun o ho' => hok o (List.mem_cons_of_mem _ ho')) hnd.2 hnew1
    refine ⟨listed, f1, ?_, f3, f4, ?_⟩
    · refine f2.trans ?_
      simp only [List.filterMap_cons, hn]
      exact (List.Perm.append_right _ e2).trans List.perm_middle.symm
    · rw [f5, e2.length_eq]; simp; omega

/-- Serving one writing request keeps each key equal to the `Id` of the note stored under it. -/
theorem keysMatchIds_serve (bucket : Bucket) (r : Request) (h : bucket.keysMatchIds) :
    ∃ bucket1 : Bucket, (serve (DBFile.ready bucket) r).2 = DBFile.ready bucket1
      ∧ bucket1.keysMatchIds := by
  cases r with
  | create now reqBody =>
    simp only [serve]
    cases hreq : unmarshalNewNote reqBody with
    | error e => exact ⟨bucket, by simp [createNote, hreq], h⟩
    | ok newNote =>
      rw [createNote_ready bucket now reqBody newNote hreq]
      split_ifs
      · exact ⟨bucket, rfl, h⟩
      · refine ⟨_, rfl, ?_⟩
        intro p hp
        rcases mem_putEntry _ _ p _ hp with hp | hp
        · have hv := unmarshalNewNote_valid reqBody newNote hreq
          refine ⟨{ Id := now.Format, Title := newNote.Title, Body := newNote.Body }, ?_, ?_⟩
          · rw [hp]
            exact unmarshalNote_marshalNote _ (Valid_Format now) hv.1 hv.2
          · rw [hp]
        · exact h p hp
  | delete id =>
    refine ⟨{ entries := delEntry id bucket.entries }, rfl, ?_⟩
    intro p hp
    exact h p (mem_delEntry id p _ hp)

/-- Serving a writing request keeps the keys of the NOTES bucket strictly ascending. -/
theorem ordered_serve (bucket : Bucket) (r : Request) (h : bucket.ordered) :
    ∃ bucket1 : Bucket, (serve (DBFile.ready bucket) r).2 = DBFile.ready bucket1
      ∧ bucket1.ordered := by
  cases r with
  | create now reqBody =>
    simp only [serve]
    cases hreq : unmarshalNewNote reqBody with
    | error e => exact ⟨bucket, by simp [createNote, hreq], h⟩
    | ok newNote =>
      rw [createNote_ready bucket now reqBody newNote hreq]
      split_ifs
      · exact ⟨bucket, rfl, h⟩
      · exact ⟨_, rfl, putEntry_ordered _ _ _ h⟩
  | delete id => exact ⟨_, rfl, delEntry_ordered id _ h⟩

/-- Every NOTES bucket the service can reach from the empty one has strictly ascending keys. -/
theorem ordered_serveAll : ∀ (requests : List Request) (bucket : Bucket), bucket.ordered →
    ∃ bucket1 : Bucket, serveAll (DBFile.ready bucket) requests = DBFile.ready bucket1
      ∧ bucket1.ordered
  | [], bucket, h => ⟨bucket, rfl, h⟩
  | r :: rest, bucket, h => by
    obtain ⟨b1, h1, h2⟩ := ordered_serve bucket r h
    simp only [serveAll, h1]
    exact ordered_serveAll rest b1 h2

/-- With both buckets in place every handler writes a reply, and an `http.Error` reply has status
500. -/
theorem ready_replies (bucket : Bucket) (now : Time) (id reqBody : Bytes) :
    (getNotes (DBFile.ready bucket) ≠ Outcome.aborted
      ∧ ∀ code msg, getNotes (DBFile.ready bucket) = Outcome.error code msg → code = 500)
    ∧ (getNote (DBFile.ready bucket) id ≠ Outcome.aborted
      ∧ ∀ code msg, getNote (DBFile.ready bucket) id = Outcome.error code msg → code = 500)
    ∧ ((createNote (DBFile.ready bucket) now reqBody).1 ≠ Outcome.aborted
      ∧ ∀ code msg, (createNote (DBFile.ready bucket) now reqBody).1 = Outcome.error code msg →
        code = 500)
    ∧ ((deleteNote (DBFile.ready bucket) id).1 ≠ Outcome.aborted
      ∧ ∀ code msg, (deleteNote (DBFile.ready bucket) id).1 = Outcome.error code msg →
        code = 500) := by
  have err : ∀ (t : String) (code : Nat) (msg : ErrorText),
      Outcome.error StatusInternalServerError (ErrorText.text t) = Outcome.error code msg →
      code = 500 := by
    intro t code msg h
    simp only [Outcome.error.injEq] at h
    exact h.1.symm
  refine ⟨?_, ?_, ?_, ?_⟩
  · simp only [getNotes]
    cases hf : forEachNote bucket.entries [] with
    | error e =>
      refine ⟨fun h => (by cases h), fun code msg h => ?_⟩
      simp only [Outcome.error.injEq] at h
      exact h.1.symm
    | ok notes => exact ⟨fun h => (by cases h), fun code msg h => by cases h⟩
  · simp only [getNote]
    cases hg : bucket.Get id with
    | none => exact ⟨fun h => (by cases h), err _⟩
    | some res =>
      dsimp only
      cases hu : unmarshalNote res with
      | error e => exact ⟨fun h => (by cases h), err _⟩
      | ok p => exact ⟨fun h => (by cases h), fun code msg h => by cases h⟩
  · simp only [createNote]
    cases hreq : unmarshalNewNote reqBody with
    | error e =>
      refine ⟨fun h => (by cases h), fun code msg h => ?_⟩
      simp only [Outcome.error.injEq] at h
      exact h.1.symm
    | ok newNote =>
      dsimp only
      cases hput : bucket.Put now.Format (marshalNote
          { Id := now.Format, Title := newNote.Title, Body := newNote.Body }) with
      | error e => exact ⟨fun h => (by cases h), err _⟩
      | ok b1 => exact ⟨fun h => (by cases h), fun code msg h => by cases h⟩
  · exact ⟨fun h => (by cases h), fun code msg h => by cases h⟩

/-- A request whose title is more than `MaxValueSize` letters `a` is answered 500: `Put` rejects
the encoded note and nothing is stored. -/
theorem createNote_oversize (n : Nat) (h : MaxValueSize < n) (bucket : Bucket) (now : Time) :
    createNote (DBFile.ready bucket) now (titleRequest (List.replicate n 0x61))
      = (Outcome.error 500 (ErrorText.text "can't create note"), DBFile.ready bucket)
      ∧ unmarshalNewNote (titleRequest (List.replicate n 0x61))
        = Except.ok { Title := List.replicate n 0x61, Body := [] } := by
  have hs : ∀ b ∈ List.replicate n 0x61, htmlSafeSet b = true := by
    intro b hb
    rw [List.mem_replicate] at hb
    rw [hb.2]; decide
  have hreq := unmarshalNewNote_titleRequest _ hs
  refine ⟨?_, hreq⟩
  rw [createNote_ready bucket now _ _ hreq]
  have hplain := appendStringAux_plain n (List.replicate n 0x61) (by simp) hs
  have hlen := marshalNote_length ⟨now.Format, List.replicate n 0x61, []⟩
    (by simpa using hplain)
  simp only [List.length_replicate] at hlen
  rw [if_pos (Or.inr (Or.inr (Nat.lt_of_lt_of_le h hlen)))]
  rfl

/-- A storable `createNote` call on a file with both buckets is answered with the note built
from the request, and the encoded note is written under its id. -/
theorem createNote_storable (bucket : Bucket) (now : Time) (reqBody : Bytes) (newNote : NewNote)
    (hreq : unmarshalNewNote reqBody = Except.ok newNote) (hst : storable now reqBody = true) :
    createNote (DBFile.ready bucket) now reqBody
      = (Outcome.json (encodeLine (marshalNote
          ⟨now.Format, newNote.Title, newNote.Body⟩)),
        DBFile.ready { entries := putEntry now.Format (marshalNote
          ⟨now.Format, newNote.Title, newNote.Body⟩) bucket.entries }) := by
  rw [createNote_ready bucket now reqBody newNote hreq]
  simp only [storable, noteOf, hreq, Bool.and_eq_true, decide_eq_true_eq] at hst
  rw [if_neg]
  intro h
  rcases h with h | h | h
  · exact hst.1.1 h
  · omega
  · omega

/-- A request that decodes, at a calendar clock of a four-digit year, with an encoded note
within `MaxValueSize`, is storable. -/
theorem storable_of_fit (now : Time) (reqBody : Bytes) (newNote : NewNote)
    (hreq : unmarshalNewNote reqBody = Except.ok newNote) (hnow : now.civil)
    (hfit : (marshalNote ⟨now.Format, newNote.Title, newNote.Body⟩).length ≤ MaxValueSize) :
    storable now reqBody = true := by
  have hlen := (Format_civil now hnow).1
  simp only [storable, noteOf, hreq, Bool.and_eq_true, decide_eq_true_eq]
  refine ⟨⟨?_, ?_⟩, hfit⟩
  · rw [hlen]; decide
  · rw [hlen]; decide

/-- With both buckets in place and an id that is not a key of the NOTES bucket, `getNote` answers
with `http.Error`, status 500 and the text "can't find note", and with no JSON body; the same
holds for `getNote` on an id right after `deleteNote` on that id, on a bucket with ascending
keys. -/
theorem getNote_not_found (bucket : Bucket) (id : Bytes) :
    (id ∉ bucket.keys →
      getNote (DBFile.ready bucket) id
          = Outcome.error 500 (ErrorText.text "can't find note")
        ∧ (getNote (DBFile.ready bucket) id).status = some 500
        ∧ ∀ body, getNote (DBFile.ready bucket) id ≠ Outcome.json body)
    ∧ (bucket.ordered →
      (deleteNote (DBFile.ready bucket) id).1.status = some 200
        ∧ getNote (deleteNote (DBFile.ready bucket) id).2 id
          = Outcome.error 500 (ErrorText.text "can't find note")) := by
  have key : ∀ b : Bucket, id ∉ b.keys → getNote (DBFile.ready b) id
      = Outcome.error 500 (ErrorText.text "can't find note") := by
    intro b hb
    simp [getNote, Bucket.Get, getEntry_absent id b.entries hb, StatusInternalServerError]
  refine ⟨fun hid => ?_, fun ho => ?_⟩
  · rw [key bucket hid]
    exact ⟨rfl, rfl, fun body h => by cases h⟩
  · refine ⟨rfl, ?_⟩
    exact key _ (not_mem_keys_delEntry id bucket.entries ho)

/-- With both buckets in place and an id that is not a key of the NOTES bucket, `deleteNote`
does not fail: it answers 200 with the JSON string "deleted note " followed by the id, and leaves
the bucket as it was; deleting an id that is a key gives a reply of the same form. -/
theorem deleteNote_absent (bucket : Bucket) (id : Bytes) (hid : id ∉ bucket.keys) :
    deleteNote (DBFile.ready bucket) id
        = (Outcome.json (encodeLine (appendString (str "deleted note " ++ id))),
          DBFile.ready bucket)
      ∧ (deleteNote (DBFile.ready bucket) id).1.status = some 200
      ∧ ∀ other : Bucket, (deleteNote (DBFile.ready other) id).1
          = Outcome.json (encodeLine (appendString (str "deleted note " ++ id))) := by
  refine ⟨?_, rfl, fun other => rfl⟩
  simp [deleteNote, Bucket.Delete, delEntry_absent id bucket.entries hid]

/-- A storable `createNote` call is answered, on every bucket, with the note built from the
request, and the encoded note is written under its id. -/
theorem storable_createNote (now : Time) (reqBody : Bytes) (h : storable now reqBody = true) :
    ∃ note : Note, noteOf now reqBody = some note ∧ note.Id = now.Format
      ∧ ∀ bucket : Bucket, createNote (DBFile.ready bucket) now reqBody
        = (Outcome.json (encodeLine (marshalNote note)),
          DBFile.ready { entries := putEntry note.Id (marshalNote note) bucket.entries }) := by
  cases hreq : unmarshalNewNote reqBody with
  | error e => simp [storable, noteOf, hreq] at h
  | ok newNote =>
    exact ⟨⟨now.Format, newNote.Title, newNote.Body⟩, by simp [noteOf, hreq], rfl,
      fun bucket => createNote_storable bucket now reqBody newNote hreq h⟩

/-- Each call of a run of storable `createNote` calls is answered 200 with a body that reads as
the object of the note built from the request. -/
theorem createAll_replies : ∀ (reqs : List (Time × Bytes)) (bucket : Bucket),
    (∀ r ∈ reqs, storable r.1 r.2 = true) →
    List.Forall₂ (fun r o => ∃ (note : Note) (reply : Bytes), noteOf r.1 r.2 = some note
        ∧ o = Outcome.json reply ∧ parseJSON reply = some (noteObject note))
      reqs (createAll (DBFile.ready bucket) reqs).1
  | [], _, _ => List.Forall₂.nil
  | (now, reqBody) :: rest, bucket, h => by
    obtain ⟨note, hn, -, hc⟩ := storable_createNote now reqBody (h _ (List.mem_cons_self _ _))
    obtain ⟨v1, v2, v3⟩ := noteOf_valid now reqBody note hn
    simp only [createAll, hc bucket]
    exact List.Forall₂.cons ⟨note, _, hn, rfl, parseJSON_noteLine note v1 v2 v3⟩
      (createAll_replies rest _ (fun r hr => h r (List.mem_cons_of_mem _ hr)))

/-- The entries of a listing decoded from pairs of a bucket hold valid UTF-8. -/
theorem forall₂_valid : ∀ (es : List (Bytes × Bytes)) (ds : List (Option Note)),
    List.Forall₂ (fun e d => unmarshalNote e.2 = Except.ok d) es ds →
    ∀ q ∈ ds, ∀ n, q = some n → Valid n.Id = true ∧ Valid n.Title = true ∧ Valid n.Body = true
  | _, _, List.Forall₂.nil => fun q hq => by cases hq
  | _, _, List.Forall₂.cons h1 h2 => by
    intro q hq n hn
    rw [List.mem_cons] at hq
    rcases hq with hq | hq
    · subst hq; subst hn
      exact unmarshalNote_valid _ n h1
    · exact forall₂_valid _ _ h2 q hq n hn

/-- When every value of a bucket decodes, the pairs decode one by one to a list of entries. -/
theorem forall₂_of_decodes : ∀ (es : List (Bytes × Bytes)),
    (∀ p ∈ es, ∃ d, unmarshalNote p.2 = Except.ok d) →
    ∃ ds, List.Forall₂ (fun e d => unmarshalNote e.2 = Except.ok d) es ds
  | [], _ => ⟨[], List.Forall₂.nil⟩
  | e :: rest, h => by
    obtain ⟨d, hd⟩ := h e (List.mem_cons_self _ _)
    obtain ⟨ds, hds⟩ := forall₂_of_decodes rest (fun p hp => h p (List.mem_cons_of_mem _ hp))
    exact ⟨d :: ds, List.Forall₂.cons hd hds⟩

/-- The listing of a bucket whose pairs decode one by one to `ds`: a 200 reply whose body reads
as the array of the entries `ds`. -/
theorem getNotes_forall₂ (bucket : Bucket) (ds : List (Option Note))
    (h : List.Forall₂ (fun e d => unmarshalNote e.2 = Except.ok d) bucket.entries ds) :
    getNotes (DBFile.ready bucket) = Outcome.json (encodeLine (marshalNotes ds))
      ∧ parseJSON (encodeLine (marshalNotes ds)) = some (JValue.array (ds.map entryValue)) := by
  refine ⟨?_, parseJSON_notesLine ds (forall₂_valid _ _ h)⟩
  simp only [getNotes, forEachNote_of_forall₂ _ _ _ h, List.nil_append]

/-! ## The claims -/

/-- C1 as amended: for every request body that decodes to a NewNote whose encoded Note is within
bolt's MaxValueSize, every store with the DB/NOTES buckets and every clock reading of a four-digit
year, createNote answers 200 and getNote on the returned id answers 200; both reply bodies are
the same bytes and read as the JSON object whose Id is the clock written as YYYYMMDDHHMMSS,
fourteen decimal digits, and whose Title and Body are those of the NewNote. -/
theorem createNote_then_getNote (bucket : Bucket) (now : Time) (reqBody : Bytes)
    (newNote : NewNote) (hreq : unmarshalNewNote reqBody = Except.ok newNote)
    (hnow : now.civil)
    (hfit : (marshalNote ⟨now.Format, newNote.Title, newNote.Body⟩).length ≤ MaxValueSize) :
    ∃ (reply answer : Bytes) (db1 : DBFile),
      createNote (DBFile.ready bucket) now reqBody = (Outcome.json reply, db1)
        ∧ (createNote (DBFile.ready bucket) now reqBody).1.status = some 200
        ∧ parseJSON reply = some (JValue.object [(str "Id", JValue.string (timestamp14 now)),
            (str "Title", JValue.string newNote.Title), (str "Body", JValue.string newNote.Body)])
        ∧ getNote db1 (timestamp14 now) = Outcome.json answer
        ∧ (getNote db1 (timestamp14 now)).status = some 200
        ∧ parseJSON answer = some (JValue.object [(str "Id", JValue.string (timestamp14 now)),
            (str "Title", JValue.string newNote.Title), (str "Body", JValue.string newNote.Body)])
        ∧ answer = reply
        ∧ (timestamp14 now).length = 14 ∧ ∀ c ∈ timestamp14 now, isDigit c = true := by
  have hst := storable_of_fit now reqBody newNote hreq hnow hfit
  have hc := createNote_storable bucket now reqBody newNote hreq hst
  have hv := unmarshalNewNote_valid reqBody newNote hreq
  have hline := parseJSON_noteLine ⟨now.Format, newNote.Title, newNote.Body⟩ (Valid_Format now)
    hv.1 hv.2
  have hget := getNote_putEntry bucket ⟨now.Format, newNote.Title, newNote.Body⟩
    (Valid_Format now) hv.1 hv.2
  have hfmt := Format_timestamp14 now hnow
  have hd := Format_civil now hnow
  simp only [noteObject] at hline
  rw [hfmt] at hc hline hget hd
  exact ⟨_, _, _, hc, by rw [hc]; rfl, hline, hget, by rw [hget]; rfl, hline, rfl, hd.1, hd.2⟩

/-- Witness of C1: the scenario of the specification on the empty bucket. -/
theorem createNote_then_getNote_witness :
    unmarshalNewNote exampleRequest
        = Except.ok { Title := str "Groceries", Body := str "milk, eggs" }
      ∧ exampleClock.civil
      ∧ (marshalNote ⟨exampleClock.Format, str "Groceries", str "milk, eggs"⟩).length ≤ MaxValueSize
      ∧ timestamp14 exampleClock = str "20240102030405"
      ∧ createNote (DBFile.ready { entries := [] }) exampleClock exampleRequest
        = (Outcome.json (str
            "\x7b\"Id\":\"20240102030405\",\"Title\":\"Groceries\",\"Body\":\"milk, eggs\"\x7d\n"),
          DBFile.ready { entries := [(exampleNote.Id, marshalNote exampleNote)] })
      ∧ ∃ (reply answer : Bytes) (db1 : DBFile),
        createNote (DBFile.ready { entries := [] }) exampleClock exampleRequest
          = (Outcome.json reply, db1)
        ∧ (createNote (DBFile.ready { entries := [] }) exampleClock exampleRequest).1.status
          = some 200
        ∧ parseJSON reply = some (JValue.object
            [(str "Id", JValue.string (timestamp14 exampleClock)),
              (str "Title", JValue.string (str "Groceries")),
              (str "Body", JValue.string (str "milk, eggs"))])
        ∧ getNote db1 (timestamp14 exampleClock) = Outcome.json answer
        ∧ (getNote db1 (timestamp14 exampleClock)).status = some 200
        ∧ parseJSON answer = some (JValue.object
            [(str "Id", JValue.string (timestamp14 exampleClock)),
              (str "Title", JValue.string (str "Groceries")),
              (str "Body", JValue.string (str "milk, eggs"))])
        ∧ answer = reply
        ∧ (timestamp14 exampleClock).length = 14
        ∧ ∀ c ∈ timestamp14 exampleClock, isDigit c = true :=
  ⟨rfl, by decide, by decide, by decide, by decide,
    createNote_then_getNote { entries := [] } exampleClock exampleRequest
      { Title := str "Groceries", Body := str "milk, eggs" } rfl (by decide) (by decide)⟩

/-- C1 fails as stated: a request whose title is 2^31 letters is a valid NewNote, yet createNote
answers it 500 (bolt rejects a value above MaxValueSize) and returns no id; and at a clock reading
in the year 10000 the id that createNote returns has fifteen digits. -/
theorem createNote_oversize_or_late :
    unmarshalNewNote oversizeRequest
        = Except.ok { Title := List.replicate (2 ^ 31) 0x61, Body := [] }
      ∧ createNote (DBFile.ready { entries := [] }) exampleClock oversizeRequest
        = (Outcome.error 500 (ErrorText.text "can't create note"),
          DBFile.ready { entries := [] })
      ∧ (createNote (DBFile.ready { entries := [] }) farClock exampleRequest).1
        = Outcome.json (str
          "\x7b\"Id\":\"100000102030405\",\"Title\":\"Groceries\",\"Body\":\"milk, eggs\"\x7d\n")
      ∧ farClock.Format.length = 15 :=
  ⟨(createNote_oversize (2 ^ 31) (by decide) { entries := [] } exampleClock).2,
    (createNote_oversize (2 ^ 31) (by decide) { entries := [] } exampleClock).1,
    by decide, by decide⟩

/-- C2 as amended: for every N and every sequence of N createNote calls that bolt can store (the
request body decodes, the generated id and the encoded Note are within bolt's key and value size
limits) with pairwise distinct generated ids, served from the empty NOTES bucket, each call is
answered 200 with a body that reads as the object of the Note it created, and getNotes then
answers 200 with a body that reads as a JSON array of exactly N objects: those of the created
Notes, each once, in ascending lexicographic order of their ids; for N = 0 the body is the empty
JSON array. -/
theorem getNotes_after_creates (reqs : List (Time × Bytes))
    (hvalid : ∀ r ∈ reqs, storable r.1 r.2 = true)
    (hids : (reqs.map (fun r => r.1.Format)).Nodup) :
    ∃ (listed : List Note) (body : Bytes),
      List.Forall₂ (fun r o => ∃ (note : Note) (reply : Bytes), noteOf r.1 r.2 = some note
          ∧ o = Outcome.json reply ∧ parseJSON reply = some (noteObject note))
        reqs (createAll (DBFile.ready { entries := [] }) reqs).1
      ∧ getNotes (createAll (DBFile.ready { entries := [] }) reqs).2 = Outcome.json body
      ∧ (getNotes (createAll (DBFile.ready { entries := [] }) reqs).2).status = some 200
      ∧ parseJSON body = some (JValue.array (listed.map noteObject))
      ∧ listed.length = reqs.length
      ∧ listed.Perm (reqs.filterMap (fun r => noteOf r.1 r.2))
      ∧ listed.Pairwise (fun a b => keyLt a.Id b.Id = true)
      ∧ (reqs = [] → body = str "[]\n") := by
  have hrep := createAll_replies reqs { entries := [] } hvalid
  have hok : ∀ o ∈ (createAll (DBFile.ready { entries := entriesOf [] }) reqs).1,
      o.status = some 200 := by
    have gen : ∀ (rs : List (Time × Bytes)) (os : List Outcome),
        List.Forall₂ (fun r o => ∃ (note : Note) (reply : Bytes), noteOf r.1 r.2 = some note
          ∧ o = Outcome.json reply ∧ parseJSON reply = some (noteObject note)) rs os →
        ∀ o ∈ os, o.status = some 200 := by
      intro rs os hf
      induction hf with
      | nil => intro o ho; cases ho
      | cons h _ ih =>
        intro o ho
        rw [List.mem_cons] at ho
        rcases ho with ho | ho
        · obtain ⟨_, reply, _, e, _⟩ := h
          rw [ho, e]; rfl
        · exact ih o ho
    exact gen _ _ hrep
  obtain ⟨listed, f1, f2, f3, f4, f5⟩ := createAll_entriesOf reqs [] (fun n hn => by cases hn)
    List.Pairwise.nil hok hids (fun r _ h => by cases h)
  have hg := getNotes_entriesOf listed f3
  rw [← f1] at hg
  change getNotes (createAll (DBFile.ready { entries := [] }) reqs).2 = _ at hg
  have hparse := parseJSON_notesLine (listed.map some) (by
    intro q hq n hn
    subst hn
    obtain ⟨m, hm, e⟩ := List.mem_map.mp hq
    simp only [Option.some.injEq] at e
    subst e
    exact f3 m hm)
  have hmap : (listed.map some).map entryValue = listed.map noteObject := by
    rw [List.map_map]; rfl
  rw [hmap] at hparse
  refine ⟨listed, _, hrep, hg, by rw [hg]; rfl, hparse, by simpa using f5, by simpa using f2,
    ?_, ?_⟩
  · have := f4
    unfold entriesOf at this
    rw [List.pairwise_map] at this
    exact this
  · intro he
    subst he
    have hl : listed = [] := by
      have : listed.length = 0 := by simpa using f5
      exact List.length_eq_zero.mp this
    subst hl
    rfl

/-- Witness of C2: two notes created out of key order are listed in key order. -/
theorem getNotes_after_creates_witness :
    (∀ r ∈ [(exampleClock, exampleRequest), (earlierClock, otherRequest)],
        storable r.1 r.2 = true)
      ∧ ([(exampleClock, exampleRequest), (earlierClock, otherRequest)].map
        (fun r => r.1.Format)).Nodup
      ∧ getNotes (createAll (DBFile.ready { entries := [] })
          [(exampleClock, exampleRequest), (earlierClock, otherRequest)]).2
        = Outcome.json (str ("[\x7b\"Id\":\"20240102030305\",\"Title\":\"Todo\","
          ++ "\"Body\":\"call \\u0026 write\"\x7d,\x7b\"Id\":\"20240102030405\","
          ++ "\"Title\":\"Groceries\",\"Body\":\"milk, eggs\"\x7d]\n"))
      ∧ ∃ (listed : List Note) (body : Bytes),
        List.Forall₂ (fun r o => ∃ (note : Note) (reply : Bytes), noteOf r.1 r.2 = some note
            ∧ o = Outcome.json reply ∧ parseJSON reply = some (noteObject note))
          [(exampleClock, exampleRequest), (earlierClock, otherRequest)]
          (createAll (DBFile.ready { entries := [] })
            [(exampleClock, exampleRequest), (earlierClock, otherRequest)]).1
        ∧ getNotes (createAll (DBFile.ready { entries := [] })
            [(exampleClock, exampleRequest), (earlierClock, otherRequest)]).2 = Outcome.json body
        ∧ (getNotes (createAll (DBFile.ready { entries := [] })
            [(exampleClock, exampleRequest), (earlierClock, otherRequest)]).2).status = some 200
        ∧ parseJSON body = some (JValue.array (listed.map noteObject))
        ∧ listed.length = [(exampleClock, exampleRequest), (earlierClock, otherRequest)].length
        ∧ listed.Perm ([(exampleClock, exampleRequest), (earlierClock, otherRequest)].filterMap
            (fun r => noteOf r.1 r.2))
        ∧ listed.Pairwise (fun a b => keyLt a.Id b.Id = true)
        ∧ ([(exampleClock, exampleRequest), (earlierClock, otherRequest)] = [] →
          body = str "[]\n") :=
  ⟨by decide, by decide, by decide,
    getNotes_after_creates [(exampleClock, exampleRequest), (earlierClock, otherRequest)]
      (by decide) (by decide)⟩

/-- C2 fails as stated: one createNote call whose title is 2^31 letters generates an id, is
answered 500 (bolt rejects a value above MaxValueSize) and stores nothing, and one call whose
body is not JSON is answered 500; after either call, N = 1, getNotes answers 200 with the empty
array, which has no entry. -/
theorem getNotes_after_rejected_create :
    ([(exampleClock, oversizeRequest)].map (fun r => r.1.Format)).Nodup
      ∧ (createAll (DBFile.ready { entries := [] }) [(exampleClock, oversizeRequest)]).1
        = [Outcome.error 500 (ErrorText.text "can't create note")]
      ∧ getNotes (createAll (DBFile.ready { entries := [] }) [(exampleClock, oversizeRequest)]).2
        = Outcome.json (str "[]\n")
      ∧ (createAll (DBFile.ready { entries := [] }) [(exampleClock, str "title")]).1
        = [Outcome.error 500 (ErrorText.ofJson JsonError.malformed)]
      ∧ getNotes (createAll (DBFile.ready { entries := [] }) [(exampleClock, str "title")]).2
        = Outcome.json (str "[]\n")
      ∧ parseJSON (str "[]\n") = some (JValue.array []) := by
  have h := (createNote_oversize (2 ^ 31) (by decide) { entries := [] } exampleClock).1
  have h1 : createNote (DBFile.ready { entries := [] }) exampleClock oversizeRequest
      = (Outcome.error 500 (ErrorText.text "can't create note"),
        DBFile.ready { entries := [] }) := h
  refine ⟨by simp, ?_, ?_, by decide, by decide, rfl⟩
  · simp only [createAll, h1]
  · simp only [createAll, h1]
    rfl

/-- C3: for every NOTES bucket (keys ascending) whose N values each decode, and every id among
its keys, getNotes answers 200 with a body that reads as a JSON array of N entries, deleteNote(id)
answers 200 and removes the one pair stored under id, and getNotes afterwards answers 200 with a
body that reads as a JSON array of N-1 entries: the previous array without the entry decoded from
that pair, every other entry unchanged and in the same order. -/
theorem deleteNote_then_getNotes (bucket : Bucket) (id : Bytes) (ho : bucket.ordered)
    (hid : id ∈ bucket.keys)
    (hnotes : ∀ p ∈ bucket.entries, ∃ d, unmarshalNote p.2 = Except.ok d) :
    ∃ (pre post : List (Option Note)) (x : Option Note) (value body body1 : Bytes)
      (before after : List (Bytes × Bytes)),
      getNotes (DBFile.ready bucket) = Outcome.json body
      ∧ parseJSON body = some (JValue.array
          (pre.map entryValue ++ entryValue x :: post.map entryValue))
      ∧ bucket.entries = before ++ (id, value) :: after
      ∧ List.Forall₂ (fun e d => unmarshalNote e.2 = Except.ok d) before pre
      ∧ unmarshalNote value = Except.ok x
      ∧ List.Forall₂ (fun e d => unmarshalNote e.2 = Except.ok d) after post
      ∧ (deleteNote (DBFile.ready bucket) id).1.status = some 200
      ∧ (deleteNote (DBFile.ready bucket) id).2 = DBFile.ready { entries := before ++ after }
      ∧ id ∉ (before ++ after).map Prod.fst
      ∧ getNotes (deleteNote (DBFile.ready bucket) id).2 = Outcome.json body1
      ∧ parseJSON body1 = some (JValue.array (pre.map entryValue ++ post.map entryValue))
      ∧ (pre.map entryValue ++ entryValue x :: post.map entryValue).length
          = bucket.entries.length
      ∧ (pre.map entryValue ++ post.map entryValue).length + 1 = bucket.entries.length := by
  obtain ⟨before, value, after, h1, -, h3, h4⟩ := ordered_split id bucket.entries ho hid
  obtain ⟨ds, hds⟩ := forall₂_of_decodes bucket.entries hnotes
  obtain ⟨g1, g2⟩ := getNotes_forall₂ bucket ds hds
  have hlen := hds.length_eq
  rw [h1] at hds
  obtain ⟨pre, x, post, d1, d2, d3, d4⟩ := forall₂_split _ _ _ _ _ hds
  subst d1
  have hdel : (deleteNote (DBFile.ready bucket) id).2
      = DBFile.ready { entries := before ++ after } := by
    simp [deleteNote, Bucket.Delete, h3]
  obtain ⟨k1, k2⟩ := getNotes_forall₂ { entries := before ++ after } (pre ++ post)
    (forall₂_append _ _ _ _ _ d2 d4)
  simp only [List.map_append, List.map_cons] at g2 k2
  refine ⟨pre, post, x, value, _, _, before, after, g1, g2, h1, d2, d3, d4, rfl, hdel, h4,
    by rw [hdel]; exact k1, k2, ?_, ?_⟩
  · rw [hlen]; simp
  · rw [hlen]; simp; omega

/-- Witness of C3: deleting the first of two notes leaves the listing of the second. -/
theorem deleteNote_then_getNotes_witness :
    exampleBucket.ordered ∧ otherNote.Id ∈ exampleBucket.keys
      ∧ (∀ p ∈ exampleBucket.entries, ∃ d, unmarshalNote p.2 = Except.ok d)
      ∧ getNotes (DBFile.ready exampleBucket)
        = Outcome.json (str ("[\x7b\"Id\":\"20240102030305\",\"Title\":\"Todo\","
          ++ "\"Body\":\"call \\u0026 write\"\x7d,\x7b\"Id\":\"20240102030405\","
          ++ "\"Title\":\"Groceries\",\"Body\":\"milk, eggs\"\x7d]\n"))
      ∧ getNotes (deleteNote (DBFile.ready exampleBucket) otherNote.Id).2
        = Outcome.json (str ("[\x7b\"Id\":\"20240102030405\","
          ++ "\"Title\":\"Groceries\",\"Body\":\"milk, eggs\"\x7d]\n"))
      ∧ ∃ (pre post : List (Option Note)) (x : Option Note) (value body body1 : Bytes)
        (before after : List (Bytes × Bytes)),
        getNotes (DBFile.ready exampleBucket) = Outcome.json body
        ∧ parseJSON body = some (JValue.array
            (pre.map entryValue ++ entryValue x :: post.map entryValue))
        ∧ exampleBucket.entries = before ++ (otherNote.Id, value) :: after
        ∧ List.Forall₂ (fun e d => unmarshalNote e.2 = Except.ok d) before pre
        ∧ unmarshalNote value = Except.ok x
        ∧ List.Forall₂ (fun e d => unmarshalNote e.2 = Except.ok d) after post
        ∧ (deleteNote (DBFile.ready exampleBucket) otherNote.Id).1.status = some 200
        ∧ (deleteNote (DBFile.ready exampleBucket) otherNote.Id).2
          = DBFile.ready { entries := before ++ after }
        ∧ otherNote.Id ∉ (before ++ after).map Prod.fst
        ∧ getNotes (deleteNote (DBFile.ready exampleBucket) otherNote.Id).2 = Outcome.json body1
        ∧ parseJSON body1 = some (JValue.array (pre.map entryValue ++ post.map entryValue))
        ∧ (pre.map entryValue ++ entryValue x :: post.map entryValue).length
            = exampleBucket.entries.length
        ∧ (pre.map entryValue ++ post.map entryValue).length + 1
            = exampleBucket.entries.length :=
  ⟨by decide, by decide,
    fun p hp => by
      simp only [exampleBucket, List.mem_cons, List.mem_singleton, List.not_mem_nil,
        or_false] at hp
      rcases hp with hp | hp
      · exact ⟨some otherNote, by rw [hp]; rfl⟩
      · exact ⟨some exampleNote, by rw [hp]; rfl⟩,
    by decide, by decide,
    deleteNote_then_getNotes exampleBucket otherNote.Id (by decide) (by decide)
      (fun p hp => by
        simp only [exampleBucket, List.mem_cons, List.mem_singleton, List.not_mem_nil,
          or_false] at hp
        rcases hp with hp | hp
        · exact ⟨some otherNote, by rw [hp]; rfl⟩
        · exact ⟨some exampleNote, by rw [hp]; rfl⟩)⟩

/-- C4, the failing input: in a store file whose DB bucket has no NOTES bucket no value is
stored under any id, yet getNote on an id ends in a panic and writes no reply, where the claim
has status 500 with "can't find note"; the same when the DB bucket is missing or bolt.Open
failed. getNotes on the file without NOTES bucket does check for it and answers 500. -/
theorem getNote_missing_bucket :
    getNote DBFile.noNotes (str "19990101000000") = Outcome.aborted
      ∧ (getNote DBFile.noNotes (str "19990101000000")).status = none
      ∧ (getNote DBFile.noNotes (str "19990101000000")).status ≠ some 500
      ∧ getNote DBFile.noRoot (str "19990101000000") = Outcome.aborted
      ∧ getNote DBFile.unopenable (str "19990101000000") = Outcome.aborted
      ∧ getNotes DBFile.noNotes = Outcome.error 500 (ErrorText.text "can't access notes") := by
  decide

/-- C5, the failing input: in a store file whose DB bucket has no NOTES bucket deleteNote on an
id ends in a panic and writes no reply, where the claim has status 200 with the JSON string
"deleted note <id>"; the same when the DB bucket is missing or bolt.Open failed. getNotes on the
file without NOTES bucket does check for it and answers 500. -/
theorem deleteNote_missing_bucket :
    (deleteNote DBFile.noNotes (str "19990101000000")).1 = Outcome.aborted
      ∧ (deleteNote DBFile.noNotes (str "19990101000000")).1.status = none
      ∧ (deleteNote DBFile.noNotes (str "19990101000000")).1.status ≠ some 200
      ∧ (deleteNote DBFile.noRoot (str "19990101000000")).1 = Outcome.aborted
      ∧ (deleteNote DBFile.unopenable (str "19990101000000")).1 = Outcome.aborted
      ∧ getNotes DBFile.noNotes = Outcome.error 500 (ErrorText.text "can't access notes") := by
  decide

/-- C6 as amended: in every successful reply of createNote, getNote and getNotes each Note is
a JSON object whose member names are exactly "Id", "Title" and "Body", the Go field names as
spelled in the struct; getNote and getNotes write `null` for a stored `null`, and the body of
getNotes reads as the JSON array of these objects. -/
theorem reply_member_names :
    (∀ db now reqBody body db1, createNote db now reqBody = (Outcome.json body, db1) →
      memberNames body = some [str "Id", str "Title", str "Body"])
    ∧ (∀ db id body, getNote db id = Outcome.json body →
      ∃ p : Option Note, body = encodeLine (marshalNotePtr p) ∧ (∀ note, p = some note →
        memberNames body = some [str "Id", str "Title", str "Body"])
        ∧ parseJSON body = some (entryValue p))
    ∧ (∀ db body, getNotes db = Outcome.json body →
      ∃ notes : List (Option Note), body = encodeLine (marshalNotes notes) ∧
        (∀ note, some note ∈ notes →
          memberNames (encodeLine (marshalNote note)) = some [str "Id", str "Title", str "Body"])
        ∧ parseJSON body = some (JValue.array (notes.map entryValue))) := by
  refine ⟨?_, ?_, ?_⟩
  · intro db now reqBody body db1 h
    obtain ⟨b, note, -, hn, hr, -⟩ := createNote_json _ _ _ _ _ h
    obtain ⟨v1, v2, v3⟩ := noteOf_valid now reqBody note hn
    rw [hr]; exact memberNames_marshalNote note v1 v2 v3
  · intro db id body h
    cases db with
    | unopenable => simp [getNote] at h
    | noRoot => simp [getNote] at h
    | noNotes => simp [getNote] at h
    | ready bucket =>
      simp only [getNote] at h
      cases hg : bucket.Get id with
      | none => simp [hg] at h
      | some res =>
        simp only [hg] at h
        cases hu : unmarshalNote res with
        | error e => simp [hu] at h
        | ok p =>
          simp only [hu, Outcome.json.injEq] at h
          refine ⟨p, h.symm, ?_, ?_⟩
          · intro note hp
            subst hp
            obtain ⟨v1, v2, v3⟩ := unmarshalNote_valid res note hu
            rw [← h]; exact memberNames_marshalNote note v1 v2 v3
          · rw [← h]
            refine parseJSON_entryLine p ?_
            intro n hp
            subst hp
            exact unmarshalNote_valid res n hu
  · intro db body h
    cases db with
    | unopenable => simp [getNotes] at h
    | noRoot => simp [getNotes] at h
    | noNotes => simp [getNotes] at h
    | ready bucket =>
      simp only [getNotes] at h
      cases hf : forEachNote bucket.entries [] with
      | error e => simp [hf] at h
      | ok notes =>
        simp only [hf, Outcome.json.injEq] at h
        obtain ⟨ds, h1, h2⟩ := forEachNote_ok _ _ _ hf
        simp only [List.nil_append] at h1
        subst h1
        refine ⟨notes, h.symm, ?_, ?_⟩
        · intro note hmem
          obtain ⟨v1, v2, v3⟩ := forall₂_valid _ _ h2 (some note) hmem note rfl
          exact memberNames_marshalNote note v1 v2 v3
        · rw [← h]
          exact parseJSON_notesLine notes (forall₂_valid _ _ h2)

/-- C6 fails as stated: the reply to the request of the scenario has the member names "Id",
"Title", "Body", not "id", "title", "body". -/
theorem createNote_reply_names :
    (createNote (DBFile.ready { entries := [] }) exampleClock exampleRequest).1
        = Outcome.json (str
          "\x7b\"Id\":\"20240102030405\",\"Title\":\"Groceries\",\"Body\":\"milk, eggs\"\x7d\n")
      ∧ memberNames (str
          "\x7b\"Id\":\"20240102030405\",\"Title\":\"Groceries\",\"Body\":\"milk, eggs\"\x7d\n")
        = some [str "Id", str "Title", str "Body"]
      ∧ memberNames (str
          "\x7b\"Id\":\"20240102030405\",\"Title\":\"Groceries\",\"Body\":\"milk, eggs\"\x7d\n")
        ≠ some [str "id", str "title", str "body"] := by
  refine ⟨by decide, by decide, by decide⟩

/-- C7, the failing inputs: with the NOTES bucket missing getNote, createNote and deleteNote
end in a panic, and so does every handler when the DB bucket is missing or bolt.Open fails; no
500 reply is written. -/
theorem handlers_abort :
    getNote DBFile.noNotes (str "20240102030405") = Outcome.aborted
      ∧ (createNote DBFile.noNotes exampleClock exampleRequest).1 = Outcome.aborted
      ∧ (deleteNote DBFile.noNotes (str "20240102030405")).1 = Outcome.aborted
      ∧ getNotes DBFile.noRoot = Outcome.aborted
      ∧ getNotes DBFile.unopenable = Outcome.aborted
      ∧ (getNotes DBFile.unopenable).status = none := by
  decide

/-- C8: initializeDatabase on a fresh file gives the empty NOTES bucket, and after every sequence
of createNote and deleteNote requests served from there the file still has the NOTES bucket and
every pair in it has a value that decodes to a Note whose Id equals the key of the pair. -/
theorem served_keys_match_ids :
    initializeDatabase DBFile.noRoot = Except.ok (DBFile.ready { entries := [] })
      ∧ ∀ requests : List Request, ∃ bucket : Bucket,
        serveAll (DBFile.ready { entries := [] }) requests = DBFile.ready bucket
          ∧ bucket.keysMatchIds := by
  refine ⟨rfl, ?_⟩
  have gen : ∀ (requests : List Request) (b : Bucket), b.keysMatchIds →
      ∃ bucket : Bucket, serveAll (DBFile.ready b) requests = DBFile.ready bucket
        ∧ bucket.keysMatchIds := by
    intro requests
    induction requests with
    | nil => intro b hb; exact ⟨b, rfl, hb⟩
    | cons r rest ih =>
      intro b hb
      obtain ⟨b1, h1, h2⟩ := keysMatchIds_serve b r hb
      simp only [serveAll, h1]
      exact ih b1 h2
  intro requests
  exact gen requests _ (fun p hp => by cases hp)

/-- C9 as amended: for every NOTES bucket (keys ascending) and every two createNote requests
that bolt can store (the body decodes, the generated id and the encoded Note are within bolt's
key and value size limits) at clock readings within the same second, served one after the other:
both are answered 200 with a body that reads as the object of the request's Note, both under the
same id; afterwards the bucket is what the later request alone would have left, it holds exactly
one pair under that id, whose value reads as the Note of the later request, and getNote on the id
answers 200 with the title and body of the later request. -/
theorem createNote_same_second (bucket : Bucket) (t1 t2 : Time) (req1 req2 : Bytes)
    (n1 n2 : NewNote) (ho : bucket.ordered) (hsame : t1.sameSecond t2)
    (hreq1 : unmarshalNewNote req1 = Except.ok n1) (hreq2 : unmarshalNewNote req2 = Except.ok n2)
    (hst1 : storable t1 req1 = true) (hst2 : storable t2 req2 = true) :
    ∃ (reply1 reply2 answer value : Bytes) (bucket1 bucket2 : Bucket)
      (before after : List (Bytes × Bytes)),
      t1.Format = t2.Format
      ∧ createNote (DBFile.ready bucket) t1 req1 = (Outcome.json reply1, DBFile.ready bucket1)
      ∧ (createNote (DBFile.ready bucket) t1 req1).1.status = some 200
      ∧ parseJSON reply1 = some (JValue.object [(str "Id", JValue.string t1.Format),
          (str "Title", JValue.string n1.Title), (str "Body", JValue.string n1.Body)])
      ∧ createNote (DBFile.ready bucket1) t2 req2 = (Outcome.json reply2, DBFile.ready bucket2)
      ∧ (createNote (DBFile.ready bucket1) t2 req2).1.status = some 200
      ∧ parseJSON reply2 = some (JValue.object [(str "Id", JValue.string t1.Format),
          (str "Title", JValue.string n2.Title), (str "Body", JValue.string n2.Body)])
      ∧ DBFile.ready bucket2 = (createNote (DBFile.ready bucket) t2 req2).2
      ∧ bucket2.entries = before ++ (t1.Format, value) :: after
      ∧ t1.Format ∉ (before ++ after).map Prod.fst
      ∧ parseJSON value = some (JValue.object [(str "Id", JValue.string t1.Format),
          (str "Title", JValue.string n2.Title), (str "Body", JValue.string n2.Body)])
      ∧ getNote (DBFile.ready bucket2) t1.Format = Outcome.json answer
      ∧ (getNote (DBFile.ready bucket2) t1.Format).status = some 200
      ∧ parseJSON answer = some (JValue.object [(str "Id", JValue.string t1.Format),
          (str "Title", JValue.string n2.Title), (str "Body", JValue.string n2.Body)]) := by
  obtain ⟨s1, s2, s3, s4, s5, s6⟩ := hsame
  have hfmt : t1.Format = t2.Format := by
    unfold Time.Format; rw [s1, s2, s3, s4, s5, s6]
  have c1 := createNote_storable bucket t1 req1 n1 hreq1 hst1
  have c2 := fun b => createNote_storable b t2 req2 n2 hreq2 hst2
  have w1 := unmarshalNewNote_valid req1 n1 hreq1
  have w2 := unmarshalNewNote_valid req2 n2 hreq2
  have p1 := parseJSON_noteLine ⟨t1.Format, n1.Title, n1.Body⟩ (Valid_Format t1) w1.1 w1.2
  have p2 := parseJSON_noteLine ⟨t1.Format, n2.Title, n2.Body⟩ (Valid_Format t1) w2.1 w2.2
  have p3 := parseJSON_noteBytes ⟨t1.Format, n2.Title, n2.Body⟩ (Valid_Format t1) w2.1 w2.2
  have hget := getNote_putEntry bucket ⟨t1.Format, n2.Title, n2.Body⟩ (Valid_Format t1)
    w2.1 w2.2
  simp only [noteObject] at p1 p2 p3
  simp only [← hfmt] at c2
  have hmem : t1.Format ∈ (putEntry t1.Format (marshalNote ⟨t1.Format, n2.Title, n2.Body⟩)
      bucket.entries).map Prod.fst :=
    List.mem_map.mpr ⟨_, mem_keys_putEntry _ _ _, rfl⟩
  obtain ⟨before, v, after, e1, e2, -, e4⟩ :=
    ordered_split _ _ (putEntry_ordered t1.Format
      (marshalNote ⟨t1.Format, n2.Title, n2.Body⟩) _ ho) hmem
  have hv : v = marshalNote ⟨t1.Format, n2.Title, n2.Body⟩ := by
    rw [getEntry_putEntry] at e2
    simp only [Option.some.injEq] at e2
    exact e2.symm
  subst hv
  have hsecond := c2 ⟨putEntry t1.Format (marshalNote ⟨t1.Format, n1.Title, n1.Body⟩)
    bucket.entries⟩
  simp only [putEntry_putEntry] at hsecond
  exact ⟨_, _, _, _, _, _, before, after, hfmt, c1, by rw [c1]; rfl, p1, hsecond,
    by rw [hsecond]; rfl, p2, by rw [c2 bucket], e1, e4, p3, hget, by rw [hget]; rfl, p2⟩

/-- Witness of C9: two requests within the second of `exampleClock`, the bucket holding one
other note. -/
theorem createNote_same_second_witness :
    exampleClock.sameSecond sameSecondClock
      ∧ (createNote (createNote (DBFile.ready { entries := [(otherNote.Id, marshalNote otherNote)] })
          exampleClock otherRequest).2 sameSecondClock exampleRequest)
        = (Outcome.json (str
            "\x7b\"Id\":\"20240102030405\",\"Title\":\"Groceries\",\"Body\":\"milk, eggs\"\x7d\n"),
          DBFile.ready exampleBucket)
      ∧ ∃ (reply1 reply2 answer value : Bytes) (bucket1 bucket2 : Bucket)
        (before after : List (Bytes × Bytes)),
        exampleClock.Format = sameSecondClock.Format
        ∧ createNote (DBFile.ready { entries := [(otherNote.Id, marshalNote otherNote)] })
            exampleClock otherRequest = (Outcome.json reply1, DBFile.ready bucket1)
        ∧ (createNote (DBFile.ready { entries := [(otherNote.Id, marshalNote otherNote)] })
            exampleClock otherRequest).1.status = some 200
        ∧ parseJSON reply1 = some (JValue.object [(str "Id", JValue.string exampleClock.Format),
            (str "Title", JValue.string (str "Todo")),
            (str "Body", JValue.string (str "call & write"))])
        ∧ createNote (DBFile.ready bucket1) sameSecondClock exampleRequest
            = (Outcome.json reply2, DBFile.ready bucket2)
        ∧ (createNote (DBFile.ready bucket1) sameSecondClock exampleRequest).1.status = some 200
        ∧ parseJSON reply2 = some (JValue.object [(str "Id", JValue.string exampleClock.Format),
            (str "Title", JValue.string (str "Groceries")),
            (str "Body", JValue.string (str "milk, eggs"))])
        ∧ DBFile.ready bucket2
          = (createNote (DBFile.ready { entries := [(otherNote.Id, marshalNote otherNote)] })
            sameSecondClock exampleRequest).2
        ∧ bucket2.entries = before ++ (exampleClock.Format, value) :: after
        ∧ exampleClock.Format ∉ (before ++ after).map Prod.fst
        ∧ parseJSON value = some (JValue.object [(str "Id", JValue.string exampleClock.Format),
            (str "Title", JValue.string (str "Groceries")),
            (str "Body", JValue.string (str "milk, eggs"))])
        ∧ getNote (DBFile.ready bucket2) exampleClock.Format = Outcome.json answer
        ∧ (getNote (DBFile.ready bucket2) exampleClock.Format).status = some 200
        ∧ parseJSON answer = some (JValue.object [(str "Id", JValue.string exampleClock.Format),
            (str "Title", JValue.string (str "Groceries")),
            (str "Body", JValue.string (str "milk, eggs"))]) :=
  ⟨by decide, by decide,
    createNote_same_second { entries := [(otherNote.Id, marshalNote otherNote)] } exampleClock
      sameSecondClock otherRequest exampleRequest
      { Title := str "Todo", Body := str "call & write" }
      { Title := str "Groceries", Body := str "milk, eggs" }
      (by decide) (by decide) rfl rfl (by decide) (by decide)⟩

/-- C9 fails as stated: of two createNote requests within one second, a request whose title is
2^31 letters is answered 500 (bolt rejects a value above MaxValueSize) and stores nothing, and so
is a request whose body is not JSON; the other request of the pair is answered 200. -/
theorem createNote_same_second_rejected :
    exampleClock.sameSecond sameSecondClock
      ∧ createNote (DBFile.ready { entries := [] }) exampleClock oversizeRequest
        = (Outcome.error 500 (ErrorText.text "can't create note"),
          DBFile.ready { entries := [] })
      ∧ createNote (DBFile.ready { entries := [] }) exampleClock (str "title")
        = (Outcome.error 500 (ErrorText.ofJson JsonError.malformed),
          DBFile.ready { entries := [] })
      ∧ (createNote (DBFile.ready { entries := [] }) sameSecondClock exampleRequest).1.status
        = some 200 :=
  ⟨by decide, (createNote_oversize (2 ^ 31) (by decide) { entries := [] } exampleClock).1,
    by decide, by decide⟩

/-- C10 as amended: for every Note whose Id, Title and Body are valid UTF-8, json.Unmarshal of
the bytes json.Marshal produces succeeds and yields a Note equal to the original. -/
theorem marshal_unmarshal_roundtrip (note : Note) (hId : Valid note.Id = true)
    (hTitle : Valid note.Title = true) (hBody : Valid note.Body = true) :
    unmarshalNote (marshalNote note) = Except.ok (some note) :=
  unmarshalNote_marshalNote note hId hTitle hBody

/-- Witness of C10: the note of the scenario. -/
theorem marshal_unmarshal_roundtrip_witness :
    Valid exampleNote.Id = true ∧ Valid exampleNote.Title = true ∧ Valid exampleNote.Body = true
      ∧ unmarshalNote (marshalNote exampleNote) = Except.ok (some exampleNote) :=
  ⟨by decide, by decide, by decide,
    marshal_unmarshal_roundtrip exampleNote (by decide) (by decide) (by decide)⟩

/-- C10 fails as stated: a Title holding the byte 0xFF, which is not UTF-8, is written as the
escape for U+FFFD and read back as the three bytes EF BF BD. -/
theorem roundtrip_invalid_utf8 :
    unmarshalNote (marshalNote { Id := [], Title := [0xFF], Body := [] })
        = Except.ok (some { Id := [], Title := [0xEF, 0xBF, 0xBD], Body := [] })
      ∧ unmarshalNote (marshalNote { Id := [], Title := [0xFF], Body := [] })
        ≠ Except.ok (some { Id := [], Title := [0xFF], Body := [] }) := by
  have h : unmarshalNote (marshalNote { Id := [], Title := [0xFF], Body := [] })
        = Except.ok (some { Id := [], Title := [0xEF, 0xBF, 0xBD], Body := [] }) := rfl
  refine ⟨h, ?_⟩
  rw [h]
  intro e
  simp at e

end NotesApi
